import Mathlib

/-!
Verification development for the control-flow lowering core of the compiler
backend: `src/librustc_trans/trans/build.rs` (the IR emission facade with its
terminated/unreachable tracking) and `src/librustc_trans/trans/controlflow.rs`
(structured control-flow lowering).  The embedding models LLVM values and
instructions abstractly, blocks as records carrying the `terminated` and
`unreachable` flags of `BlockS`, and the function-wide context as an explicit
state threaded through every operation.  Fatal internal-compiler errors
(`panic!` / `sess.bug`) are modelled as `Except.error`.

Conventions:
- Debug-only instrumentation of the source (debug-location application, span
  comments behind the `asm_comments` session flag, `count_insn` statistics)
  emits nothing observable and is not modelled.
- Collaborators that live outside the given sources (`cleanup.rs`, `expr.rs`,
  `base.rs`) are modelled from the specification; each such definition carries
  a doc comment starting with "Modelled from the spec:".
- The mutually recursive lowering functions take a fuel argument that only
  bounds the recursion depth of the embedding; the source recursion is
  structural on the AST, so every theorem quantifies over sufficient fuel.
-/

namespace Rustc

/-- Abstract model of an LLVM `ValueRef`: undef, the nil / null constants used
as placeholders, boolean constants (for constant-foldable conditions),
instruction results (`reg`) and lvalue slots. -/
inductive Val where
  | undef : Val
  | nilC : Val
  | nullC : Val
  | constBool : Bool → Val
  | reg : Nat → Val
  | slot : Nat → Val
deriving Repr, DecidableEq

/-- Abstract model of the instructions the facade can append to a block.
Terminator instructions carry their target block ids so that predecessor
queries (`pred_iter` in `trans_loop`) can be answered from the emitted code. -/
inductive Instr where
  | retVoid : Instr
  | retV : Val → Instr
  | aggregateRet : Instr
  | br : Nat → Instr
  | condBr : Val → Nat → Nat → Instr
  | switchI : Val → Nat → Instr
  | indirectBr : Val → Instr
  | invokeI : Val → Nat → Nat → Instr
  | unreachableI : Instr
  | resumeI : Val → Instr
  | addI : Val → Val → Instr
  | subI : Val → Val → Instr
  | mulI : Val → Val → Instr
  | icmpI : Val → Val → Instr
  | selectI : Val → Val → Val → Instr
  | loadI : Val → Instr
  | storeI : Val → Val → Instr
  | callI : Val → Instr
  | atomicCmpXchgI : Val → Val → Val → Instr
  | atomicRMWI : Val → Val → Instr
  | landingPadI : Instr
  | inlineAsmI : Instr
  | cleanupI : Nat → Instr
  | genericI : Nat → Instr
deriving Repr, DecidableEq

/-- Model of `BlockS`: the per-block state of the Terminator/Reachability
Tracker (`terminated` and `unreachable` flags) together with the instructions
emitted into the block. -/
structure BB where
  name : String
  terminated : Bool
  unreachable : Bool
  insns : List Instr
deriving Repr, DecidableEq

/-- Cleanup-scope record: an AST block scope or a loop scope.  A loop scope
carries its break and continue target blocks (`exits` in `cleanup.rs`); every
scope carries its pending cleanup actions. -/
inductive CleanupScope where
  | astScope : Nat → List Nat → CleanupScope
  | loopScope : (id : Nat) → (breakBlk : Nat) → (contBlk : Nat) → (cleanups : List Nat) → CleanupScope
deriving Repr, DecidableEq

/-- Oracles consumed from the surrounding compiler (type sizes, drop queries,
the reachability analysis `cfg`, and the label def-map), modelled as finite
data keyed by AST node id. -/
structure Tcx where
  zeroSized : List Nat
  needsDrop : List Nat
  cfgReachable : Option (List Nat)
  defMap : List (Nat × Nat)
deriving Repr, DecidableEq

/-- Model of `FunctionContext`: the block arena, the cleanup-scope stack, the
return-slot information, the shared return-cleanup exit block, a fresh value
counter and the nested items processed by `TransItemVisitor`.  The immutable
type context `Tcx` is passed to the lowering functions separately, as the
source reaches it through the shared crate context. -/
structure FCx where
  nextBlk : Nat
  blocks : List (Nat × BB)
  scopes : List CleanupScope
  llretslotptr : Option Nat
  needsRetAllocas : Bool
  retExit : Nat
  nextVal : Nat
  items : List Nat
deriving Repr, DecidableEq

/-- Destination for an expression's value: ignored, or stored into a slot. -/
inductive Dest where
  | ignore : Dest
  | saveIn : Nat → Dest
deriving Repr, DecidableEq

def lookupBB : List (Nat × BB) → Nat → Option BB
  | [], _ => none
  | p :: rest, i => if p.1 = i then some p.2 else lookupBB rest i

def updateBB : List (Nat × BB) → Nat → (BB → BB) → List (Nat × BB)
  | [], _, _ => []
  | p :: rest, i, f => (if p.1 = i then (p.1, f p.2) else p) :: updateBB rest i f

/-- The block the `BlockContext` cursor points at (total for convenience; all
theorems hypothesise that the block exists in the arena). -/
def getBl (fcx : FCx) (cur : Nat) : BB :=
  (lookupBB fcx.blocks cur).getD (BB.mk "" false false [])

/-- Append an instruction to the given block of the arena. -/
def emitI (fcx : FCx) (cur : Nat) (i : Instr) : FCx :=
  { fcx with blocks := updateBB fcx.blocks cur (fun b => { b with insns := b.insns ++ [i] }) }

/-- Allocate a fresh instruction-result value (the `ValueRef` returned by the
underlying builder). -/
def freshVal (fcx : FCx) : FCx × Val :=
  ({ fcx with nextVal := fcx.nextVal + 1 }, Val.reg fcx.nextVal)

/- ----------------------------------------------------------------------
build.rs : the IR emission facade
---------------------------------------------------------------------- -/

/-- build.rs `terminate`: records that a terminator has been appended. -/
def terminate (fcx : FCx) (cur : Nat) : FCx :=
  { fcx with blocks := updateBB fcx.blocks cur (fun b => { b with terminated := true }) }

/-- build.rs `check_not_terminated`: fatal error when the block already has a
terminator. -/
def check_not_terminated (fcx : FCx) (cur : Nat) : Except String Unit :=
  if (getBl fcx cur).terminated then Except.error "already terminated!" else Except.ok ()

/-- build.rs `_Undef`: the undef placeholder of the value's type. -/
def _Undef (_val : Val) : Val := Val.undef

/-- build.rs `RetVoid`. -/
def RetVoid (fcx : FCx) (cur : Nat) : Except String FCx :=
  if (getBl fcx cur).unreachable then Except.ok fcx
  else
    match check_not_terminated fcx cur with
    | Except.error e => Except.error e
    | Except.ok _ => Except.ok (emitI (terminate fcx cur) cur Instr.retVoid)

/-- build.rs `Ret`. -/
def Ret (fcx : FCx) (cur : Nat) (v : Val) : Except String FCx :=
  if (getBl fcx cur).unreachable then Except.ok fcx
  else
    match check_not_terminated fcx cur with
    | Except.error e => Except.error e
    | Except.ok _ => Except.ok (emitI (terminate fcx cur) cur (Instr.retV v))

/-- build.rs `AggregateRet`. -/
def AggregateRet (fcx : FCx) (cur : Nat) : Except String FCx :=
  if (getBl fcx cur).unreachable then Except.ok fcx
  else
    match check_not_terminated fcx cur with
    | Except.error e => Except.error e
    | Except.ok _ => Except.ok (emitI (terminate fcx cur) cur Instr.aggregateRet)

/-- build.rs `Br`. -/
def Br (fcx : FCx) (cur : Nat) (dest : Nat) : Except String FCx :=
  if (getBl fcx cur).unreachable then Except.ok fcx
  else
    match check_not_terminated fcx cur with
    | Except.error e => Except.error e
    | Except.ok _ => Except.ok (emitI (terminate fcx cur) cur (Instr.br dest))

/-- build.rs `CondBr`. -/
def CondBr (fcx : FCx) (cur : Nat) (if_ : Val) (thenB elseB : Nat) : Except String FCx :=
  if (getBl fcx cur).unreachable then Except.ok fcx
  else
    match check_not_terminated fcx cur with
    | Except.error e => Except.error e
    | Except.ok _ => Except.ok (emitI (terminate fcx cur) cur (Instr.condBr if_ thenB elseB))

/-- build.rs `Switch`: returns the switch instruction's value (undef when the
block is unreachable). -/
def Switch (fcx : FCx) (cur : Nat) (v : Val) (elseB : Nat) : Except String (FCx × Val) :=
  if (getBl fcx cur).unreachable then Except.ok (fcx, _Undef v)
  else
    match check_not_terminated fcx cur with
    | Except.error e => Except.error e
    | Except.ok _ =>
      let fcx := terminate fcx cur
      let p := freshVal fcx
      Except.ok (emitI p.1 cur (Instr.switchI v elseB), p.2)

/-- build.rs `IndirectBr`. -/
def IndirectBr (fcx : FCx) (cur : Nat) (addr : Val) : Except String FCx :=
  if (getBl fcx cur).unreachable then Except.ok fcx
  else
    match check_not_terminated fcx cur with
    | Except.error e => Except.error e
    | Except.ok _ => Except.ok (emitI (terminate fcx cur) cur (Instr.indirectBr addr))

/-- build.rs `Invoke`: returns the call's value (a null constant when the block
is unreachable). -/
def Invoke (fcx : FCx) (cur : Nat) (fn : Val) (thenB catchB : Nat) : Except String (FCx × Val) :=
  if (getBl fcx cur).unreachable then Except.ok (fcx, Val.nullC)
  else
    match check_not_terminated fcx cur with
    | Except.error e => Except.error e
    | Except.ok _ =>
      let fcx := terminate fcx cur
      let p := freshVal fcx
      Except.ok (emitI p.1 cur (Instr.invokeI fn thenB catchB), p.2)

/-- build.rs `Unreachable`: marks the block unreachable; if it carries no
terminator yet, closes it with an explicit unreachable terminator.  Note that
it does not set the `terminated` flag. -/
def Unreachable (fcx : FCx) (cur : Nat) : FCx :=
  if (getBl fcx cur).unreachable then fcx
  else
    let fcx := { fcx with blocks := updateBB fcx.blocks cur (fun b => { b with unreachable := true }) }
    if (getBl fcx cur).terminated then fcx
    else emitI fcx cur Instr.unreachableI

/-- build.rs `Add` (representative of the arithmetic value operations). -/
def Add (fcx : FCx) (cur : Nat) (lhs rhs : Val) : FCx × Val :=
  if (getBl fcx cur).unreachable then (fcx, _Undef lhs)
  else
    let p := freshVal fcx
    (emitI p.1 cur (Instr.addI lhs rhs), p.2)

/-- build.rs `Sub`. -/
def Sub (fcx : FCx) (cur : Nat) (lhs rhs : Val) : FCx × Val :=
  if (getBl fcx cur).unreachable then (fcx, _Undef lhs)
  else
    let p := freshVal fcx
    (emitI p.1 cur (Instr.subI lhs rhs), p.2)

/-- build.rs `Mul`. -/
def Mul (fcx : FCx) (cur : Nat) (lhs rhs : Val) : FCx × Val :=
  if (getBl fcx cur).unreachable then (fcx, _Undef lhs)
  else
    let p := freshVal fcx
    (emitI p.1 cur (Instr.mulI lhs rhs), p.2)

/-- build.rs `ICmp`: returns undef of type i1 when unreachable. -/
def ICmp (fcx : FCx) (cur : Nat) (lhs rhs : Val) : FCx × Val :=
  if (getBl fcx cur).unreachable then (fcx, Val.undef)
  else
    let p := freshVal fcx
    (emitI p.1 cur (Instr.icmpI lhs rhs), p.2)

/-- build.rs `Select`. -/
def Select (fcx : FCx) (cur : Nat) (if_ thenV elseV : Val) : FCx × Val :=
  if (getBl fcx cur).unreachable then (fcx, _Undef thenV)
  else
    let p := freshVal fcx
    (emitI p.1 cur (Instr.selectI if_ thenV elseV), p.2)

/-- build.rs `Load`: returns undef of the element type when unreachable. -/
def Load (fcx : FCx) (cur : Nat) (ptr : Val) : FCx × Val :=
  if (getBl fcx cur).unreachable then (fcx, Val.undef)
  else
    let p := freshVal fcx
    (emitI p.1 cur (Instr.loadI ptr), p.2)

/-- build.rs `Store`: returns the nil constant when unreachable. -/
def Store (fcx : FCx) (cur : Nat) (v ptr : Val) : FCx × Val :=
  if (getBl fcx cur).unreachable then (fcx, Val.nilC)
  else
    let p := freshVal fcx
    (emitI p.1 cur (Instr.storeI v ptr), p.2)

/-- build.rs `_UndefReturn`: undef of the callee's return type. -/
def _UndefReturn (_fcx : FCx) (_fn : Val) : Val := Val.undef

/-- build.rs `Call`: returns `_UndefReturn` when the block is unreachable. -/
def Call (fcx : FCx) (cur : Nat) (fn : Val) : FCx × Val :=
  if (getBl fcx cur).unreachable then (fcx, _UndefReturn fcx fn)
  else
    let p := freshVal fcx
    (emitI p.1 cur (Instr.callI fn), p.2)

/-- build.rs `AtomicCmpXchg`: emits unconditionally, with no unreachable or
terminated check. -/
def AtomicCmpXchg (fcx : FCx) (cur : Nat) (dst cmp src : Val) : FCx × Val :=
  let p := freshVal fcx
  (emitI p.1 cur (Instr.atomicCmpXchgI dst cmp src), p.2)

/-- build.rs `AtomicRMW`: emits unconditionally, with no unreachable or
terminated check. -/
def AtomicRMW (fcx : FCx) (cur : Nat) (dst src : Val) : FCx × Val :=
  let p := freshVal fcx
  (emitI p.1 cur (Instr.atomicRMWI dst src), p.2)

/-- build.rs `Resume`: checks `check_not_terminated` and terminates, but never
checks the unreachable flag. -/
def Resume (fcx : FCx) (cur : Nat) (exn : Val) : Except String (FCx × Val) :=
  match check_not_terminated fcx cur with
  | Except.error e => Except.error e
  | Except.ok _ =>
    let fcx := terminate fcx cur
    let p := freshVal fcx
    Except.ok (emitI p.1 cur (Instr.resumeI exn), p.2)

/-- build.rs `LandingPad`: checks `check_not_terminated` and asserts the block
is reachable. -/
def LandingPad (fcx : FCx) (cur : Nat) : Except String (FCx × Val) :=
  match check_not_terminated fcx cur with
  | Except.error e => Except.error e
  | Except.ok _ =>
    if (getBl fcx cur).unreachable then Except.error "assertion failed: not unreachable"
    else
      let p := freshVal fcx
      Except.ok (emitI p.1 cur Instr.landingPadI, p.2)

/-- build.rs `InlineAsmCall`: emits unconditionally, with no checks. -/
def InlineAsmCall (fcx : FCx) (cur : Nat) : FCx × Val :=
  let p := freshVal fcx
  (emitI p.1 cur Instr.inlineAsmI, p.2)

/-- Enumeration of the embedded IR emission facade operations, used to state
properties quantified over every operation. -/
inductive BuildOp where
  | retVoidOp | retOp | aggregateRetOp | brOp | condBrOp | switchOp | indirectBrOp
  | invokeOp | resumeOp
  | addOp | subOp | mulOp | icmpOp | selectOp | loadOp | storeOp | callOp
  | atomicCmpXchgOp | atomicRMWOp | landingPadOp | inlineAsmOp
deriving Repr, DecidableEq

/-- Run a facade operation on the current block with sample operand values and
target blocks; yields the updated context and the operation's result value
(`none` for the unit-returning terminator operations). -/
def BuildOp.run (op : BuildOp) (fcx : FCx) (cur : Nat) (v1 v2 v3 : Val) (t1 t2 : Nat) :
    Except String (FCx × Option Val) :=
  match op with
  | BuildOp.retVoidOp => (RetVoid fcx cur).map (fun f => (f, none))
  | BuildOp.retOp => (Ret fcx cur v1).map (fun f => (f, none))
  | BuildOp.aggregateRetOp => (AggregateRet fcx cur).map (fun f => (f, none))
  | BuildOp.brOp => (Br fcx cur t1).map (fun f => (f, none))
  | BuildOp.condBrOp => (CondBr fcx cur v1 t1 t2).map (fun f => (f, none))
  | BuildOp.switchOp => (Switch fcx cur v1 t1).map (fun p => (p.1, some p.2))
  | BuildOp.indirectBrOp => (IndirectBr fcx cur v1).map (fun f => (f, none))
  | BuildOp.invokeOp => (Invoke fcx cur v1 t1 t2).map (fun p => (p.1, some p.2))
  | BuildOp.resumeOp => (Resume fcx cur v1).map (fun p => (p.1, some p.2))
  | BuildOp.addOp => Except.ok ((Add fcx cur v1 v2).1, some (Add fcx cur v1 v2).2)
  | BuildOp.subOp => Except.ok ((Sub fcx cur v1 v2).1, some (Sub fcx cur v1 v2).2)
  | BuildOp.mulOp => Except.ok ((Mul fcx cur v1 v2).1, some (Mul fcx cur v1 v2).2)
  | BuildOp.icmpOp => Except.ok ((ICmp fcx cur v1 v2).1, some (ICmp fcx cur v1 v2).2)
  | BuildOp.selectOp => Except.ok ((Select fcx cur v1 v2 v3).1, some (Select fcx cur v1 v2 v3).2)
  | BuildOp.loadOp => Except.ok ((Load fcx cur v1).1, some (Load fcx cur v1).2)
  | BuildOp.storeOp => Except.ok ((Store fcx cur v1 v2).1, some (Store fcx cur v1 v2).2)
  | BuildOp.callOp => Except.ok ((Call fcx cur v1).1, some (Call fcx cur v1).2)
  | BuildOp.atomicCmpXchgOp =>
      Except.ok ((AtomicCmpXchg fcx cur v1 v2 v3).1, some (AtomicCmpXchg fcx cur v1 v2 v3).2)
  | BuildOp.atomicRMWOp => Except.ok ((AtomicRMW fcx cur v1 v2).1, some (AtomicRMW fcx cur v1 v2).2)
  | BuildOp.landingPadOp => (LandingPad fcx cur).map (fun p => (p.1, some p.2))
  | BuildOp.inlineAsmOp => Except.ok ((InlineAsmCall fcx cur).1, some (InlineAsmCall fcx cur).2)

/-- The terminator-appending facade operations. -/
def BuildOp.isTerm (op : BuildOp) : Bool :=
  match op with
  | BuildOp.retVoidOp | BuildOp.retOp | BuildOp.aggregateRetOp | BuildOp.brOp
  | BuildOp.condBrOp | BuildOp.switchOp | BuildOp.indirectBrOp | BuildOp.invokeOp
  | BuildOp.resumeOp => true
  | _ => false

/-- A placeholder value: undef or one of the nil / null constants used by the
facade when suppressing emission on unreachable blocks. -/
def isPlaceholder : Val → Bool
  | Val.undef => true
  | Val.nilC => true
  | Val.nullC => true
  | _ => false

def isPlaceholderO : Option Val → Bool
  | none => true
  | some v => isPlaceholder v

/-- Terminator instructions of the abstract IR. -/
def Instr.isTerm : Instr → Bool
  | Instr.retVoid | Instr.retV _ | Instr.aggregateRet | Instr.br _ | Instr.condBr _ _ _
  | Instr.switchI _ _ | Instr.indirectBr _ | Instr.invokeI _ _ _ | Instr.unreachableI
  | Instr.resumeI _ => true
  | _ => false

/- ----------------------------------------------------------------------
Arena lemmas
---------------------------------------------------------------------- -/

theorem lookupBB_updateBB_self (bs : List (Nat × BB)) (i : Nat) (f : BB → BB) :
    lookupBB (updateBB bs i f) i = (lookupBB bs i).map f := by
  induction bs with
  | nil => rfl
  | cons p rest ih =>
    by_cases h : p.1 = i <;> simp [lookupBB, updateBB, h, ih]

theorem lookupBB_terminate (fcx : FCx) (cur : Nat) :
    lookupBB (terminate fcx cur).blocks cur =
      (lookupBB fcx.blocks cur).map (fun b => { b with terminated := true }) := by
  simp [terminate, lookupBB_updateBB_self]

theorem lookupBB_emitI (fcx : FCx) (cur : Nat) (i : Instr) :
    lookupBB (emitI fcx cur i).blocks cur =
      (lookupBB fcx.blocks cur).map (fun b => { b with insns := b.insns ++ [i] }) := by
  simp [emitI, lookupBB_updateBB_self]

theorem getBl_eq {fcx : FCx} {cur : Nat} {bb : BB} (h : lookupBB fcx.blocks cur = some bb) :
    getBl fcx cur = bb := by
  simp [getBl, h]

/- ----------------------------------------------------------------------
Claim C1: unreachable suppression across the IR emission facade
---------------------------------------------------------------------- -/

/-- Property claimed for every facade operation: on an unreachable block the
operation performs no emission (the context, and hence every block's emitted
instruction list, is unchanged) and returns a placeholder value. -/
def unreachSuppresses (op : BuildOp) : Prop :=
  ∀ (fcx : FCx) (cur : Nat) (bb : BB) (v1 v2 v3 : Val) (t1 t2 : Nat),
    lookupBB fcx.blocks cur = some bb → bb.unreachable = true →
    ∃ r, op.run fcx cur v1 v2 v3 t1 t2 = Except.ok (fcx, r) ∧ isPlaceholderO r = true

/-- A function context whose single block 0 is unreachable (not terminated). -/
def cexFcx : FCx :=
  { nextBlk := 1, blocks := [(0, BB.mk "" false true [])], scopes := [],
    llretslotptr := none, needsRetAllocas := false, retExit := 0, nextVal := 0, items := [] }

/-- C1 is false as stated: `AtomicCmpXchg` performs no unreachable check, so on
an unreachable block it still emits an instruction (changing the emitted
instruction count) instead of short-circuiting. -/
theorem C1_counterexample : ¬ (∀ op : BuildOp, unreachSuppresses op) := by
  intro h
  obtain ⟨r, hr, -⟩ :=
    h BuildOp.atomicCmpXchgOp cexFcx 0 (BB.mk "" false true [])
      Val.undef Val.undef Val.undef 0 0 rfl rfl
  have hx : BuildOp.run BuildOp.atomicCmpXchgOp cexFcx 0 Val.undef Val.undef Val.undef 0 0 =
      Except.ok ({ cexFcx with
                    nextVal := 1,
                    blocks := [(0, BB.mk "" false true
                      [Instr.atomicCmpXchgI Val.undef Val.undef Val.undef])] },
                 some (Val.reg 0)) := rfl
  rw [hx] at hr
  simp only [Except.ok.injEq, Prod.mk.injEq] at hr
  have hnv := congrArg FCx.nextVal hr.1
  simp [cexFcx] at hnv

/-- C1 (amended): every facade operation except `AtomicCmpXchg`, `AtomicRMW`,
`Resume`, `LandingPad` and `InlineAsmCall` first checks the acting block's
unreachable flag; if set, it emits nothing (the context is unchanged) and
returns a well-typed placeholder (undef, or a nil / null constant). -/
theorem C1_amended (op : BuildOp)
    (hop : op ≠ BuildOp.atomicCmpXchgOp ∧ op ≠ BuildOp.atomicRMWOp ∧
           op ≠ BuildOp.resumeOp ∧ op ≠ BuildOp.landingPadOp ∧ op ≠ BuildOp.inlineAsmOp) :
    unreachSuppresses op := by
  intro fcx cur bb v1 v2 v3 t1 t2 hbb hunreach
  have hg : getBl fcx cur = bb := getBl_eq hbb
  cases op with
  | retVoidOp => exact ⟨none, by simp [BuildOp.run, Except.map, RetVoid, hg, hunreach], rfl⟩
  | retOp => exact ⟨none, by simp [BuildOp.run, Except.map, Ret, hg, hunreach], rfl⟩
  | aggregateRetOp => exact ⟨none, by simp [BuildOp.run, Except.map, AggregateRet, hg, hunreach], rfl⟩
  | brOp => exact ⟨none, by simp [BuildOp.run, Except.map, Br, hg, hunreach], rfl⟩
  | condBrOp => exact ⟨none, by simp [BuildOp.run, Except.map, CondBr, hg, hunreach], rfl⟩
  | switchOp => exact ⟨some (_Undef v1), by simp [BuildOp.run, Except.map, Switch, hg, hunreach], rfl⟩
  | indirectBrOp => exact ⟨none, by simp [BuildOp.run, Except.map, IndirectBr, hg, hunreach], rfl⟩
  | invokeOp => exact ⟨some Val.nullC, by simp [BuildOp.run, Except.map, Invoke, hg, hunreach], rfl⟩
  | resumeOp => exact absurd rfl hop.2.2.1
  | addOp => exact ⟨some (_Undef v1), by simp [BuildOp.run, Except.map, Add, hg, hunreach], rfl⟩
  | subOp => exact ⟨some (_Undef v1), by simp [BuildOp.run, Except.map, Sub, hg, hunreach], rfl⟩
  | mulOp => exact ⟨some (_Undef v1), by simp [BuildOp.run, Except.map, Mul, hg, hunreach], rfl⟩
  | icmpOp => exact ⟨some Val.undef, by simp [BuildOp.run, Except.map, ICmp, hg, hunreach], rfl⟩
  | selectOp => exact ⟨some (_Undef v2), by simp [BuildOp.run, Except.map, Select, hg, hunreach], rfl⟩
  | loadOp => exact ⟨some Val.undef, by simp [BuildOp.run, Except.map, Load, hg, hunreach], rfl⟩
  | storeOp => exact ⟨some Val.nilC, by simp [BuildOp.run, Except.map, Store, hg, hunreach], rfl⟩
  | callOp => exact ⟨some (_UndefReturn fcx v1), by simp [BuildOp.run, Except.map, Call, hg, hunreach], rfl⟩
  | atomicCmpXchgOp => exact absurd rfl hop.1
  | atomicRMWOp => exact absurd rfl hop.2.1
  | landingPadOp => exact absurd rfl hop.2.2.2.1
  | inlineAsmOp => exact absurd rfl hop.2.2.2.2

/-- Witness for C1 (amended): `Add` on the unreachable block of `cexFcx`. -/
theorem C1_witness :
    ∃ r, BuildOp.run BuildOp.addOp cexFcx 0 (Val.reg 5) (Val.reg 6) Val.undef 0 0 =
        Except.ok (cexFcx, r) ∧ isPlaceholderO r = true :=
  C1_amended BuildOp.addOp
    ⟨by decide, by decide, by decide, by decide, by decide⟩
    cexFcx 0 (BB.mk "" false true []) (Val.reg 5) (Val.reg 6) Val.undef 0 0 rfl rfl

/- ----------------------------------------------------------------------
Claim C7: terminator-appending contract on reachable blocks
---------------------------------------------------------------------- -/

/-- C7: every terminator-appending facade operation acting on a block that is
not marked unreachable raises a fatal error when the block's terminated flag is
already set, and otherwise sets the terminated flag and appends exactly one
terminator instruction. -/
theorem C7_terminator_contract (op : BuildOp) (hterm : op.isTerm = true)
    (fcx : FCx) (cur : Nat) (bb : BB) (v1 v2 v3 : Val) (t1 t2 : Nat)
    (hbb : lookupBB fcx.blocks cur = some bb) (hre : bb.unreachable = false) :
    (bb.terminated = true → ∃ e, op.run fcx cur v1 v2 v3 t1 t2 = Except.error e) ∧
    (bb.terminated = false → ∃ fcx2 r i,
        op.run fcx cur v1 v2 v3 t1 t2 = Except.ok (fcx2, r) ∧
        lookupBB fcx2.blocks cur =
          some { bb with terminated := true, insns := bb.insns ++ [i] } ∧
        Instr.isTerm i = true) := by
  have hg : getBl fcx cur = bb := getBl_eq hbb
  have hpost : ∀ i : Instr,
      lookupBB (emitI (terminate fcx cur) cur i).blocks cur =
        some { bb with terminated := true, insns := bb.insns ++ [i] } := by
    intro i
    simp [lookupBB_emitI, lookupBB_terminate, hbb]
  have hpostf : ∀ i : Instr,
      lookupBB (emitI (freshVal (terminate fcx cur)).1 cur i).blocks cur =
        some { bb with terminated := true, insns := bb.insns ++ [i] } := by
    intro i
    simp [lookupBB_emitI, freshVal, lookupBB_terminate, hbb]
  cases op with
  | retVoidOp =>
    refine ⟨fun ht => ⟨"already terminated!", ?_⟩,
            fun ht => ⟨emitI (terminate fcx cur) cur Instr.retVoid, none, Instr.retVoid,
                       ?_, hpost _, rfl⟩⟩
    · simp [BuildOp.run, Except.map, RetVoid, check_not_terminated, hg, hre, ht]
    · simp [BuildOp.run, Except.map, RetVoid, check_not_terminated, hg, hre, ht]
  | retOp =>
    refine ⟨fun ht => ⟨"already terminated!", ?_⟩,
            fun ht => ⟨emitI (terminate fcx cur) cur (Instr.retV v1), none, Instr.retV v1,
                       ?_, hpost _, rfl⟩⟩
    · simp [BuildOp.run, Except.map, Ret, check_not_terminated, hg, hre, ht]
    · simp [BuildOp.run, Except.map, Ret, check_not_terminated, hg, hre, ht]
  | aggregateRetOp =>
    refine ⟨fun ht => ⟨"already terminated!", ?_⟩,
            fun ht => ⟨emitI (terminate fcx cur) cur Instr.aggregateRet, none,
                       Instr.aggregateRet, ?_, hpost _, rfl⟩⟩
    · simp [BuildOp.run, Except.map, AggregateRet, check_not_terminated, hg, hre, ht]
    · simp [BuildOp.run, Except.map, AggregateRet, check_not_terminated, hg, hre, ht]
  | brOp =>
    refine ⟨fun ht => ⟨"already terminated!", ?_⟩,
            fun ht => ⟨emitI (terminate fcx cur) cur (Instr.br t1), none, Instr.br t1,
                       ?_, hpost _, rfl⟩⟩
    · simp [BuildOp.run, Except.map, Br, check_not_terminated, hg, hre, ht]
    · simp [BuildOp.run, Except.map, Br, check_not_terminated, hg, hre, ht]
  | condBrOp =>
    refine ⟨fun ht => ⟨"already terminated!", ?_⟩,
            fun ht => ⟨emitI (terminate fcx cur) cur (Instr.condBr v1 t1 t2), none,
                       Instr.condBr v1 t1 t2, ?_, hpost _, rfl⟩⟩
    · simp [BuildOp.run, Except.map, CondBr, check_not_terminated, hg, hre, ht]
    · simp [BuildOp.run, Except.map, CondBr, check_not_terminated, hg, hre, ht]
  | switchOp =>
    refine ⟨fun ht => ⟨"already terminated!", ?_⟩,
            fun ht => ⟨emitI (freshVal (terminate fcx cur)).1 cur (Instr.switchI v1 t1),
                       some (Val.reg fcx.nextVal), Instr.switchI v1 t1, ?_, hpostf _, rfl⟩⟩
    · simp [BuildOp.run, Except.map, Switch, check_not_terminated, hg, hre, ht]
    · simp [BuildOp.run, Except.map, Switch, check_not_terminated, hg, hre, ht,
        freshVal, terminate]
  | indirectBrOp =>
    refine ⟨fun ht => ⟨"already terminated!", ?_⟩,
            fun ht => ⟨emitI (terminate fcx cur) cur (Instr.indirectBr v1), none,
                       Instr.indirectBr v1, ?_, hpost _, rfl⟩⟩
    · simp [BuildOp.run, Except.map, IndirectBr, check_not_terminated, hg, hre, ht]
    · simp [BuildOp.run, Except.map, IndirectBr, check_not_terminated, hg, hre, ht]
  | invokeOp =>
    refine ⟨fun ht => ⟨"already terminated!", ?_⟩,
            fun ht => ⟨emitI (freshVal (terminate fcx cur)).1 cur (Instr.invokeI v1 t1 t2),
                       some (Val.reg fcx.nextVal), Instr.invokeI v1 t1 t2, ?_, hpostf _, rfl⟩⟩
    · simp [BuildOp.run, Except.map, Invoke, check_not_terminated, hg, hre, ht]
    · simp [BuildOp.run, Except.map, Invoke, check_not_terminated, hg, hre, ht,
        freshVal, terminate]
  | resumeOp =>
    refine ⟨fun ht => ⟨"already terminated!", ?_⟩,
            fun ht => ⟨emitI (freshVal (terminate fcx cur)).1 cur (Instr.resumeI v1),
                       some (Val.reg fcx.nextVal), Instr.resumeI v1, ?_, hpostf _, rfl⟩⟩
    · simp [BuildOp.run, Except.map, Resume, check_not_terminated, hg, ht]
    · simp [BuildOp.run, Except.map, Resume, check_not_terminated, hg, ht,
        freshVal, terminate]
  | addOp => simp [BuildOp.isTerm] at hterm
  | subOp => simp [BuildOp.isTerm] at hterm
  | mulOp => simp [BuildOp.isTerm] at hterm
  | icmpOp => simp [BuildOp.isTerm] at hterm
  | selectOp => simp [BuildOp.isTerm] at hterm
  | loadOp => simp [BuildOp.isTerm] at hterm
  | storeOp => simp [BuildOp.isTerm] at hterm
  | callOp => simp [BuildOp.isTerm] at hterm
  | atomicCmpXchgOp => simp [BuildOp.isTerm] at hterm
  | atomicRMWOp => simp [BuildOp.isTerm] at hterm
  | landingPadOp => simp [BuildOp.isTerm] at hterm
  | inlineAsmOp => simp [BuildOp.isTerm] at hterm

/-- A function context whose single block 0 is open (reachable, not
terminated). -/
def openFcx : FCx :=
  { nextBlk := 1, blocks := [(0, BB.mk "" false false [])], scopes := [],
    llretslotptr := none, needsRetAllocas := false, retExit := 0, nextVal := 0, items := [] }

/-- Witness for C7: `Br` on the open block of `openFcx`. -/
theorem C7_witness :
    ∃ fcx2 r i,
      BuildOp.run BuildOp.brOp openFcx 0 Val.undef Val.undef Val.undef 0 0 =
          Except.ok (fcx2, r) ∧
      lookupBB fcx2.blocks 0 =
        some { BB.mk "" false false [] with
               terminated := true
               insns := (BB.mk "" false false []).insns ++ [i] } ∧
      Instr.isTerm i = true :=
  (C7_terminator_contract BuildOp.brOp rfl openFcx 0 (BB.mk "" false false [])
    Val.undef Val.undef Val.undef 0 0 rfl rfl).2 rfl

/- ----------------------------------------------------------------------
Claim C9: the mark-unreachable operation
---------------------------------------------------------------------- -/

/-- C9: `Unreachable` on an already-unreachable block does nothing; otherwise
it sets the unreachable flag, leaves the terminated flag unchanged, and emits
an explicit unreachable terminator exactly when the terminated flag was not
yet set. -/
theorem C9_mark_unreachable (fcx : FCx) (cur : Nat) (bb : BB)
    (hbb : lookupBB fcx.blocks cur = some bb) :
    (bb.unreachable = true → Unreachable fcx cur = fcx) ∧
    (bb.unreachable = false →
      lookupBB (Unreachable fcx cur).blocks cur =
        some { bb with
                 unreachable := true
                 insns := if bb.terminated then bb.insns
                          else bb.insns ++ [Instr.unreachableI] }) := by
  have hg : getBl fcx cur = bb := getBl_eq hbb
  constructor
  · intro h
    simp [Unreachable, hg, h]
  · intro h
    by_cases ht : bb.terminated
    · simp [Unreachable, hg, h, getBl, lookupBB_updateBB_self, hbb, ht]
    · simp only [Bool.not_eq_true] at ht
      simp [Unreachable, hg, h, getBl, lookupBB_updateBB_self, lookupBB_emitI, hbb, ht]

/-- Witness for C9 at a concrete open block. -/
theorem C9_witness :
    lookupBB (Unreachable openFcx 0).blocks 0 =
      some { BB.mk "" false false [] with
             unreachable := true
             insns := if (BB.mk "" false false []).terminated then []
                      else [] ++ [Instr.unreachableI] } :=
  (C9_mark_unreachable openFcx 0 (BB.mk "" false false []) rfl).2 rfl

/- ----------------------------------------------------------------------
Claim C10: terminators on unreachable blocks are silently suppressed
---------------------------------------------------------------------- -/

/-- Property claimed for every terminator-appending operation: on an
unreachable block (whatever the terminated flag) the operation succeeds
without emitting, so the double-termination error can never fire. -/
def termUnreachSilent (op : BuildOp) : Prop :=
  ∀ (fcx : FCx) (cur : Nat) (bb : BB) (v1 v2 v3 : Val) (t1 t2 : Nat),
    lookupBB fcx.blocks cur = some bb → bb.unreachable = true →
    ∃ r, op.run fcx cur v1 v2 v3 t1 t2 = Except.ok (fcx, r)

/-- A function context whose single block 0 is both unreachable and
terminated. -/
def cexFcxTerm : FCx :=
  { nextBlk := 1, blocks := [(0, BB.mk "" true true [])], scopes := [],
    llretslotptr := none, needsRetAllocas := false, retExit := 0, nextVal := 0, items := [] }

/-- C10 is false as stated: `Resume` appends a terminator but performs no
unreachable check, so on an unreachable block that already carries a
terminator it raises the double-termination fatal error. -/
theorem C10_counterexample :
    ¬ (∀ op : BuildOp, op.isTerm = true → termUnreachSilent op) := by
  intro h
  obtain ⟨r, hr⟩ :=
    h BuildOp.resumeOp rfl cexFcxTerm 0 (BB.mk "" true true [])
      Val.undef Val.undef Val.undef 0 0 rfl rfl
  have hx : BuildOp.run BuildOp.resumeOp cexFcxTerm 0 Val.undef Val.undef Val.undef 0 0 =
      Except.error "already terminated!" := rfl
  rw [hx] at hr
  exact absurd hr (by simp)

/-- C10 (amended): every terminator-appending operation except `Resume` checks
the unreachable flag before the terminated flag, so appending such a
terminator to an unreachable block is silently suppressed whatever the
terminated flag; and the mark-unreachable operation never sets the terminated
flag.  `Resume` alone omits the unreachable check and can raise the
double-termination error on an unreachable block. -/
theorem C10_amended (op : BuildOp) (hterm : op.isTerm = true)
    (hne : op ≠ BuildOp.resumeOp) :
    termUnreachSilent op ∧
    (∀ (fcx : FCx) (cur : Nat) (bb : BB), lookupBB fcx.blocks cur = some bb →
      (getBl (Unreachable fcx cur) cur).terminated = bb.terminated) := by
  constructor
  · intro fcx cur bb v1 v2 v3 t1 t2 hbb hunreach
    have hg : getBl fcx cur = bb := getBl_eq hbb
    cases op with
    | retVoidOp => exact ⟨none, by simp [BuildOp.run, Except.map, RetVoid, hg, hunreach]⟩
    | retOp => exact ⟨none, by simp [BuildOp.run, Except.map, Ret, hg, hunreach]⟩
    | aggregateRetOp => exact ⟨none, by simp [BuildOp.run, Except.map, AggregateRet, hg, hunreach]⟩
    | brOp => exact ⟨none, by simp [BuildOp.run, Except.map, Br, hg, hunreach]⟩
    | condBrOp => exact ⟨none, by simp [BuildOp.run, Except.map, CondBr, hg, hunreach]⟩
    | switchOp => exact ⟨some (_Undef v1), by simp [BuildOp.run, Except.map, Switch, hg, hunreach]⟩
    | indirectBrOp => exact ⟨none, by simp [BuildOp.run, Except.map, IndirectBr, hg, hunreach]⟩
    | invokeOp => exact ⟨some Val.nullC, by simp [BuildOp.run, Except.map, Invoke, hg, hunreach]⟩
    | resumeOp => exact absurd rfl hne
    | addOp => simp [BuildOp.isTerm] at hterm
    | subOp => simp [BuildOp.isTerm] at hterm
    | mulOp => simp [BuildOp.isTerm] at hterm
    | icmpOp => simp [BuildOp.isTerm] at hterm
    | selectOp => simp [BuildOp.isTerm] at hterm
    | loadOp => simp [BuildOp.isTerm] at hterm
    | storeOp => simp [BuildOp.isTerm] at hterm
    | callOp => simp [BuildOp.isTerm] at hterm
    | atomicCmpXchgOp => simp [BuildOp.isTerm] at hterm
    | atomicRMWOp => simp [BuildOp.isTerm] at hterm
    | landingPadOp => simp [BuildOp.isTerm] at hterm
    | inlineAsmOp => simp [BuildOp.isTerm] at hterm
  · intro fcx cur bb hbb
    have hg : getBl fcx cur = bb := getBl_eq hbb
    by_cases hu : bb.unreachable
    · simp [Unreachable, hg, hu]
    · simp only [Bool.not_eq_true] at hu
      by_cases ht : bb.terminated
      · simp [Unreachable, hg, hu, getBl, lookupBB_updateBB_self, hbb, ht]
      · simp only [Bool.not_eq_true] at ht
        simp [Unreachable, hg, hu, getBl, lookupBB_updateBB_self, lookupBB_emitI, hbb, ht]

/-- Witness for C10 (amended): `Br` on the unreachable, terminated block of
`cexFcxTerm`. -/
theorem C10_witness :
    ∃ r, BuildOp.run BuildOp.brOp cexFcxTerm 0 Val.undef Val.undef Val.undef 7 0 =
        Except.ok (cexFcxTerm, r) :=
  (C10_amended BuildOp.brOp rfl (by decide)).1 cexFcxTerm 0 (BB.mk "" true true [])
    Val.undef Val.undef Val.undef 7 0 rfl rfl

/- ----------------------------------------------------------------------
controlflow.rs : AST model
---------------------------------------------------------------------- -/

mutual
/-- The control-flow fragment of the AST consumed by controlflow.rs.  A
`simple` leaf stands for any non-control-flow expression: it carries the node
id, the value it lowers to, and the number of instructions its lowering
emits. -/
inductive Expr where
  | simple : Nat → Val → Nat → Expr
  | ifE : Nat → Expr → Blk → OptE → Expr
  | whileE : Nat → Expr → Blk → Expr
  | loopE : Nat → Blk → Expr
  | breakE : Nat → Option Nat → Expr
  | contE : Nat → Option Nat → Expr
  | retE : Nat → OptE → Expr
  | blockE : Nat → Blk → Expr
deriving Repr, DecidableEq

/-- An optional expression (`Option<P<ast::Expr>>` in the source). -/
inductive OptE where
  | noneE : OptE
  | someE : Expr → OptE
deriving Repr, DecidableEq

/-- A statement: expression statement, local declaration with initializer, or
a nested item declaration. -/
inductive Stmt where
  | exprS : Nat → Expr → Stmt
  | declLocal : Nat → Expr → Stmt
  | declItem : Nat → Nat → Stmt
deriving Repr, DecidableEq

/-- A statement list. -/
inductive Stmts where
  | nil : Stmts
  | cons : Stmt → Stmts → Stmts
deriving Repr, DecidableEq

/-- An `ast::Block`: node id, statements, optional trailing expression. -/
inductive Blk where
  | mk : Nat → Stmts → OptE → Blk
deriving Repr, DecidableEq
end

def exprId : Expr → Nat
  | Expr.simple i _ _ => i
  | Expr.ifE i _ _ _ => i
  | Expr.whileE i _ _ => i
  | Expr.loopE i _ => i
  | Expr.breakE i _ => i
  | Expr.contE i _ => i
  | Expr.retE i _ => i
  | Expr.blockE i _ => i

def blkId : Blk → Nat
  | Blk.mk i _ _ => i

def stmtId : Stmt → Nat
  | Stmt.exprS i _ => i
  | Stmt.declLocal i _ => i
  | Stmt.declItem i _ => i

def optEId : OptE → Nat
  | OptE.noneE => 0
  | OptE.someE e => exprId e

def isNoneE : OptE → Bool
  | OptE.noneE => true
  | OptE.someE _ => false

/- ----------------------------------------------------------------------
Collaborators of controlflow.rs modelled from the spec
---------------------------------------------------------------------- -/

/-- Modelled from the spec: base.rs `new_id_block` / block creation (not in
src): creates a fresh empty basic block owned by the function, with a
human-readable hint name and a source-node identity for diagnostics. -/
def new_id_block (fcx : FCx) (name : String) (_id : Nat) : FCx × Nat :=
  ({ fcx with nextBlk := fcx.nextBlk + 1,
              blocks := fcx.blocks ++ [(fcx.nextBlk, BB.mk name false false [])] },
   fcx.nextBlk)

/-- Modelled from the spec: cleanup.rs `push_ast_cleanup_scope` (not in src):
pushes a lexical scope with no pending cleanups. -/
def push_ast_cleanup_scope (fcx : FCx) (id : Nat) : FCx :=
  { fcx with scopes := CleanupScope.astScope id [] :: fcx.scopes }

def CleanupScope.pending : CleanupScope → List Nat
  | CleanupScope.astScope _ cs => cs
  | CleanupScope.loopScope _ _ _ cs => cs

/-- Modelled from the spec: materializing a scope's pending cleanup actions
into the current block (emission is suppressed on an unreachable block, like
every facade emission). -/
def emitCleanups (fcx : FCx) (cur : Nat) (cs : List Nat) : FCx :=
  if (getBl fcx cur).unreachable then fcx
  else cs.foldl (fun f n => emitI f cur (Instr.cleanupI n)) fcx

/-- Modelled from the spec: cleanup.rs `pop_and_trans_ast_cleanup_scope` (not
in src): pops the top scope and materializes its pending cleanups on the
normal exit edge. -/
def pop_and_trans_ast_cleanup_scope (fcx : FCx) (cur : Nat) : Except String (FCx × Nat) :=
  match fcx.scopes with
  | [] => Except.error "popping cleanup scope from empty stack"
  | s :: rest => Except.ok (emitCleanups { fcx with scopes := rest } cur s.pending, cur)

/-- Modelled from the spec: cleanup.rs `push_loop_cleanup_scope` (not in src):
pushes a loop scope with break and continue exit targets. -/
def push_loop_cleanup_scope (fcx : FCx) (id brk cont : Nat) : FCx :=
  { fcx with scopes := CleanupScope.loopScope id brk cont [] :: fcx.scopes }

/-- Modelled from the spec: cleanup.rs `pop_loop_cleanup_scope` (not in src):
pops the top scope, which must be the loop scope with the given id. -/
def pop_loop_cleanup_scope (fcx : FCx) (id : Nat) : Except String FCx :=
  match fcx.scopes with
  | CleanupScope.loopScope id2 _ _ _ :: rest =>
    if id2 = id then Except.ok { fcx with scopes := rest }
    else Except.error "popping mismatched loop scope"
  | _ => Except.error "popping mismatched loop scope"

/-- Modelled from the spec: cleanup.rs `top_loop_scope` (not in src): the id of
the innermost loop scope; fatal when there is none. -/
def top_loop_scope : List CleanupScope → Except String Nat
  | [] => Except.error "no loop scope"
  | CleanupScope.loopScope id _ _ _ :: _ => Except.ok id
  | CleanupScope.astScope _ _ :: rest => top_loop_scope rest

def EXIT_BREAK : Nat := 0
def EXIT_LOOP : Nat := 1

/-- Walk the scope stack from the top looking for the loop scope with the
given id; collect the pending cleanups of every scope strictly above it and
return them with the requested exit target (break or continue block). -/
def findLoopExit : List CleanupScope → Nat → Nat → List Nat → Option (List Nat × Nat)
  | [], _, _, _ => none
  | CleanupScope.astScope _ cs :: rest, loopId, exit, acc =>
    findLoopExit rest loopId exit (acc ++ cs)
  | CleanupScope.loopScope id brk cont cs :: rest, loopId, exit, acc =>
    if id = loopId then some (acc, if exit = EXIT_BREAK then brk else cont)
    else findLoopExit rest loopId exit (acc ++ cs)

/-- Modelled from the spec: cleanup.rs `normal_exit_block` (not in src):
returns the cleanup-exit block for exiting to the loop scope `loopId` with the
given exit kind (break or continue).  It lazily synthesizes a block that runs
the pending cleanups of every scope between the top of the stack and the
target and then branches to the target's break or continue block; when no
cleanups are pending it is the target block itself, at zero extra cost.
Failing to find the loop scope is a fatal internal error. -/
def normal_exit_block (fcx : FCx) (loopId exit : Nat) : Except String (FCx × Nat) :=
  match findLoopExit fcx.scopes loopId exit [] with
  | none => Except.error "no cleanup scope found with id"
  | some ([], target) => Except.ok (fcx, target)
  | some (cs, target) =>
    let p := new_id_block fcx "cleanup" loopId
    let f2 := cs.foldl (fun f n => emitI f p.2 (Instr.cleanupI n)) p.1
    Except.ok (emitI f2 p.2 (Instr.br target), p.2)

/-- Modelled from the spec: cleanup.rs `return_exit_block` (not in src): the
function's single shared return-cleanup exit block. -/
def return_exit_block (fcx : FCx) : Nat := fcx.retExit

/-- Modelled from the spec: base.rs `FunctionContext::get_ret_slot` (not in
src): the return-value destination slot; a fresh temporary when the calling
convention needs return allocas, else the return pointer itself. -/
def get_ret_slot (fcx : FCx) : FCx × Nat :=
  if fcx.needsRetAllocas then ({ fcx with nextVal := fcx.nextVal + 1 }, fcx.nextVal)
  else (fcx, fcx.llretslotptr.getD 0)

/-- Allocate a fresh temporary lvalue slot. -/
def freshSlot (fcx : FCx) : FCx × Nat :=
  ({ fcx with nextVal := fcx.nextVal + 1 }, fcx.nextVal)

/-- Modelled from the spec: cleanup.rs `schedule_drop_mem` (not in src):
registers a pending cleanup action on the top scope. -/
def schedule_drop (fcx : FCx) (n : Nat) : FCx :=
  match fcx.scopes with
  | [] => fcx
  | CleanupScope.astScope id cs :: rest =>
    { fcx with scopes := CleanupScope.astScope id (cs ++ [n]) :: rest }
  | CleanupScope.loopScope id b c cs :: rest =>
    { fcx with scopes := CleanupScope.loopScope id b c (cs ++ [n]) :: rest }

/-- Branch targets of an instruction (the uses scanned by `pred_iter`). -/
def Instr.targets : Instr → List Nat
  | Instr.br d => [d]
  | Instr.condBr _ t e => [t, e]
  | Instr.switchI _ d => [d]
  | Instr.invokeI _ t c => [t, c]
  | _ => []

def isPredOf (b : BB) (n : Nat) : Bool :=
  b.insns.any (fun i => (Instr.targets i).contains n)

/-- The predecessors of block `n`: every arena block holding an instruction
that targets `n` (the model of `BasicBlock(..).pred_iter()`). -/
def preds (fcx : FCx) (n : Nat) : List Nat :=
  (fcx.blocks.filter (fun p => isPredOf p.2 n)).map (fun p => p.1)

def lookupDef : List (Nat × Nat) → Nat → Option Nat
  | [], _ => none
  | p :: rest, i => if p.1 = i then some p.2 else lookupDef rest i

/-- common.rs `is_const` on the abstract value model. -/
def is_const : Val → Bool
  | Val.constBool _ => true
  | _ => false

/-- common.rs `is_undef` on the abstract value model. -/
def is_undef : Val → Bool
  | Val.undef => true
  | _ => false

/-- common.rs `const_to_uint` on the abstract value model. -/
def const_to_uint : Val → Nat
  | Val.constBool b => if b then 1 else 0
  | _ => 0

mutual
/-- Modelled from the spec: the traversal of `TransItemVisitor` (not in src):
the nested item declarations of an expression, in visitation order. -/
def collectExprItems : Expr → List Nat
  | Expr.simple _ _ _ => []
  | Expr.ifE _ c thn els => collectExprItems c ++ collectBlkItems thn ++ collectOptEItems els
  | Expr.whileE _ c b => collectExprItems c ++ collectBlkItems b
  | Expr.loopE _ b => collectBlkItems b
  | Expr.breakE _ _ => []
  | Expr.contE _ _ => []
  | Expr.retE _ oe => collectOptEItems oe
  | Expr.blockE _ b => collectBlkItems b

/-- Item collection for an optional expression. -/
def collectOptEItems : OptE → List Nat
  | OptE.noneE => []
  | OptE.someE e => collectExprItems e

/-- Item collection for a block. -/
def collectBlkItems : Blk → List Nat
  | Blk.mk _ stmts oe => collectStmtsItems stmts ++ collectOptEItems oe

/-- Item collection for a statement list. -/
def collectStmtsItems : Stmts → List Nat
  | Stmts.nil => []
  | Stmts.cons s rest => collectStmtItems s ++ collectStmtsItems rest

/-- Item collection for a statement. -/
def collectStmtItems : Stmt → List Nat
  | Stmt.exprS _ e => collectExprItems e
  | Stmt.declLocal _ init => collectExprItems init
  | Stmt.declItem _ itemId => [itemId]
end

/-- Modelled from the spec: `TransItemVisitor.visit_expr` (not in src):
processes the nested item declarations of the untaken arm, emitting no code
into the current function and touching no blocks. -/
def visitExprItems (fcx : FCx) (e : Expr) : FCx :=
  { fcx with items := fcx.items ++ collectExprItems e }

/-- Modelled from the spec: `TransItemVisitor.visit_block` (not in src). -/
def visitBlkItems (fcx : FCx) (b : Blk) : FCx :=
  { fcx with items := fcx.items ++ collectBlkItems b }

/- ----------------------------------------------------------------------
controlflow.rs : lowering
---------------------------------------------------------------------- -/

/-- Emit the instructions of a `simple` leaf expression (suppressed when the
block is unreachable, as every underlying facade emission is). -/
def emitGeneric (fcx : FCx) (cur : Nat) : Nat → FCx
  | 0 => fcx
  | n+1 => emitI (emitGeneric fcx cur n) cur (Instr.genericI n)

def emitSimple (fcx : FCx) (cur : Nat) (n : Nat) : FCx :=
  if (getBl fcx cur).unreachable then fcx else emitGeneric fcx cur n

/-- The destination downgrade of `trans_block` (controlflow.rs 113-127): a
non-ignored destination is downgraded to ignored when the block has no
trailing expression, when the block's type is zero-sized, or when the
reachability analysis marks the trailing expression unreachable. -/
def blockDest (tcx : Tcx) (bid : Nat) (bexpr : OptE) (dest : Dest) : Dest :=
  if dest = Dest.ignore then dest
  else if isNoneE bexpr || tcx.zeroSized.contains bid then Dest.ignore
  else
    match tcx.cfgReachable with
    | some reach => if reach.contains (optEId bexpr) then dest else Dest.ignore
    | none => dest

/-- The destination resolution of `trans_ret` (controlflow.rs 372-378): the
function's return slot when both a return slot and a return expression exist,
otherwise ignored. -/
def retDest (fcx : FCx) (retvalExpr : OptE) : FCx × Dest :=
  match fcx.llretslotptr, retvalExpr with
  | some _, OptE.someE _ =>
    let p := get_ret_slot fcx
    (p.1, Dest.saveIn p.2)
  | _, _ => (fcx, Dest.ignore)

/-- Modelled from the spec: base.rs `FunctionContext::join_blocks` (not in
src): creates a join block and branches each arm's exit block to it; an arm
that ended unreachable contributes no edge, since its `Br` is suppressed. -/
def brAll : FCx → List Nat → Nat → Except String FCx
  | fcx, [], _ => Except.ok fcx
  | fcx, b :: rest, j =>
    match Br fcx b j with
    | Except.error e => Except.error e
    | Except.ok f2 => brAll f2 rest j

def join_blocks (fcx : FCx) (id : Nat) (ins : List Nat) : Except String (FCx × Nat) :=
  let p := new_id_block fcx "join" id
  match brAll p.1 ins p.2 with
  | Except.error e => Except.error e
  | Except.ok f2 => Except.ok (f2, p.2)

/-- controlflow.rs `trans_break_cont`: early return on an unreachable block;
resolves the target loop scope (innermost via `top_loop_scope` when unlabeled,
else by def-map lookup, where an unresolved label is a fatal internal error);
branches to that scope's cleanup exit block for the requested exit kind; then
marks the current block unreachable. -/
def trans_break_cont (tcx : Tcx) (fcx : FCx) (cur : Nat) (exprNodeId : Nat)
    (optLabel : Option Nat) (exit : Nat) : Except String (FCx × Nat) :=
  if (getBl fcx cur).unreachable then Except.ok (fcx, cur)
  else
    match (match optLabel with
           | none => top_loop_scope fcx.scopes
           | some _ =>
             match lookupDef tcx.defMap exprNodeId with
             | some loopId => Except.ok loopId
             | none => Except.error "in def-map for label") with
    | Except.error e => Except.error e
    | Except.ok loopId =>
      match normal_exit_block fcx loopId exit with
      | Except.error e => Except.error e
      | Except.ok (f1, cleanupB) =>
        match Br f1 cur cleanupB with
        | Except.error e => Except.error e
        | Except.ok f2 => Except.ok (Unreachable f2 cur, cur)

/-- controlflow.rs `trans_break`. -/
def trans_break (tcx : Tcx) (fcx : FCx) (cur : Nat) (exprNodeId : Nat)
    (optLabel : Option Nat) : Except String (FCx × Nat) :=
  trans_break_cont tcx fcx cur exprNodeId optLabel EXIT_BREAK

/-- controlflow.rs `trans_cont`. -/
def trans_cont (tcx : Tcx) (fcx : FCx) (cur : Nat) (exprNodeId : Nat)
    (optLabel : Option Nat) : Except String (FCx × Nat) :=
  trans_break_cont tcx fcx cur exprNodeId optLabel EXIT_LOOP

mutual
/-- controlflow.rs `trans_stmt`: early return on an unreachable block; pushes
a per-statement cleanup scope, lowers the statement, pops the scope.  The fuel
argument only bounds the recursion depth of the embedding. -/
def trans_stmt : Nat → Tcx → FCx → Nat → Stmt → Except String (FCx × Nat)
  | 0, _, _, _, _ => Except.error "fuel exhausted"
  | fuel+1, tcx, fcx, cur, s =>
    if (getBl fcx cur).unreachable then Except.ok (fcx, cur)
    else
      let fcx := push_ast_cleanup_scope fcx (stmtId s)
      match s with
      | Stmt.exprS _ e =>
        match trans_stmt_semi fuel tcx fcx cur e with
        | Except.error err => Except.error err
        | Except.ok (f2, c2) => pop_and_trans_ast_cleanup_scope f2 c2
      | Stmt.declLocal lid init =>
        match init_local fuel tcx fcx cur lid init with
        | Except.error err => Except.error err
        | Except.ok (f2, c2) => pop_and_trans_ast_cleanup_scope f2 c2
      | Stmt.declItem _ _ => pop_and_trans_ast_cleanup_scope fcx cur
termination_by structural fuel => fuel

/-- controlflow.rs `trans_stmt_semi`: early return on an unreachable block;
an expression whose type needs drop is lowered to an lvalue, otherwise it is
lowered for effect with destination ignored. -/
def trans_stmt_semi : Nat → Tcx → FCx → Nat → Expr → Except String (FCx × Nat)
  | 0, _, _, _, _ => Except.error "fuel exhausted"
  | fuel+1, tcx, fcx, cur, e =>
    if (getBl fcx cur).unreachable then Except.ok (fcx, cur)
    else if tcx.needsDrop.contains (exprId e) then
      trans_to_lvalue fuel tcx fcx cur e
    else
      expr_trans_into fuel tcx fcx cur e Dest.ignore
termination_by structural fuel => fuel

/-- Modelled from the spec: expr.rs `trans_to_lvalue` (not in src): lowers the
expression into a fresh temporary lvalue slot. -/
def trans_to_lvalue : Nat → Tcx → FCx → Nat → Expr → Except String (FCx × Nat)
  | 0, _, _, _, _ => Except.error "fuel exhausted"
  | fuel+1, tcx, fcx, cur, e =>
    let p := freshSlot fcx
    expr_trans_into fuel tcx p.1 cur e (Dest.saveIn p.2)
termination_by structural fuel => fuel

/-- Modelled from the spec: base.rs `init_local` (not in src): lowers the
local's initializer into the local's slot and schedules the local's drop
cleanup when its type needs drop. -/
def init_local : Nat → Tcx → FCx → Nat → Nat → Expr → Except String (FCx × Nat)
  | 0, _, _, _, _, _ => Except.error "fuel exhausted"
  | fuel+1, tcx, fcx, cur, lid, init =>
    let p := freshSlot fcx
    match expr_trans_into fuel tcx p.1 cur init (Dest.saveIn p.2) with
    | Except.error e => Except.error e
    | Except.ok (f2, c2) =>
      Except.ok ((if tcx.needsDrop.contains lid then schedule_drop f2 lid else f2), c2)
termination_by structural fuel => fuel

/-- Sequential lowering of a statement list (the `for s in b.stmts` loop of
`trans_block`). -/
def trans_stmts : Nat → Tcx → FCx → Nat → Stmts → Except String (FCx × Nat)
  | 0, _, _, _, _ => Except.error "fuel exhausted"
  | _+1, _, fcx, cur, Stmts.nil => Except.ok (fcx, cur)
  | fuel+1, tcx, fcx, cur, Stmts.cons s rest =>
    match trans_stmt fuel tcx fcx cur s with
    | Except.error e => Except.error e
    | Except.ok (f2, c2) => trans_stmts fuel tcx f2 c2 rest
termination_by structural fuel => fuel

/-- controlflow.rs `trans_block`: early return on an unreachable block; pushes
an ast cleanup scope, lowers the statements, downgrades the destination to
ignored when there is no trailing expression, the block's type is zero-sized,
or the reachability analysis marks the trailing expression unreachable; lowers
the trailing expression into the resulting destination (skipped if the block
became unreachable); asserts the destination is ignored when there is no
trailing expression; pops the scope. -/
def trans_block : Nat → Tcx → FCx → Nat → Blk → Dest → Except String (FCx × Nat)
  | 0, _, _, _, _, _ => Except.error "fuel exhausted"
  | fuel+1, tcx, fcx, cur, Blk.mk bid stmts bexpr, dest =>
    if (getBl fcx cur).unreachable then Except.ok (fcx, cur)
    else
      let fcx := push_ast_cleanup_scope fcx bid
      match trans_stmts fuel tcx fcx cur stmts with
      | Except.error e => Except.error e
      | Except.ok (f1, c1) =>
        let dest2 := blockDest tcx bid bexpr dest
        match bexpr with
        | OptE.someE e =>
          if (getBl f1 c1).unreachable then pop_and_trans_ast_cleanup_scope f1 c1
          else
            match expr_trans_into fuel tcx f1 c1 e dest2 with
            | Except.error err => Except.error err
            | Except.ok (f2, c2) => pop_and_trans_ast_cleanup_scope f2 c2
        | OptE.noneE =>
          if dest2 = Dest.ignore || (getBl f1 c1).unreachable then
            pop_and_trans_ast_cleanup_scope f1 c1
          else Except.error "assertion failed: dest == Ignore or block unreachable"
termination_by structural fuel => fuel

/-- controlflow.rs `trans_if`: early return on an unreachable block; lowers
the condition to a boolean value; when that value is a non-undef compile-time
constant, visits the untaken side's item declarations and lowers only the
taken side into the destination, creating no blocks; otherwise creates then /
else (or next) blocks, lowers both arms, joins them, and emits the conditional
branch from the condition's end block. -/
def trans_if : Nat → Tcx → FCx → Nat → Nat → Expr → Blk → OptE → Dest → Except String (FCx × Nat)
  | 0, _, _, _, _, _, _, _, _ => Except.error "fuel exhausted"
  | fuel+1, tcx, fcx, cur, ifId, cond, thn, els, dest =>
    if (getBl fcx cur).unreachable then Except.ok (fcx, cur)
    else
      match expr_trans fuel tcx fcx cur cond with
      | Except.error e => Except.error e
      | Except.ok (f1, c1, condVal) =>
        if is_const condVal && !is_undef condVal then
          if const_to_uint condVal = 1 then
            let f2 := match els with
                      | OptE.someE ee => visitExprItems f1 ee
                      | OptE.noneE => f1
            trans_block fuel tcx f2 c1 thn dest
          else
            let f2 := visitBlkItems f1 thn
            match els with
            | OptE.someE ee => expr_trans_into fuel tcx f2 c1 ee dest
            | OptE.noneE => Except.ok (f2, c1)
        else
          let pThen := new_id_block f1 "then-block" (blkId thn)
          match trans_block fuel tcx pThen.1 pThen.2 thn dest with
          | Except.error e => Except.error e
          | Except.ok (f3, thenOut) =>
            match els with
            | OptE.someE ee =>
              let pElse := new_id_block f3 "else-block" (exprId ee)
              match expr_trans_into fuel tcx pElse.1 pElse.2 ee dest with
              | Except.error e => Except.error e
              | Except.ok (f5, elseOut) =>
                match join_blocks f5 ifId [thenOut, elseOut] with
                | Except.error e => Except.error e
                | Except.ok (f6, nextB) =>
                  match CondBr f6 c1 condVal pThen.2 pElse.2 with
                  | Except.error e => Except.error e
                  | Except.ok f7 => Except.ok (f7, nextB)
            | OptE.noneE =>
              let pNext := new_id_block f3 "next-block" ifId
              match Br pNext.1 thenOut pNext.2 with
              | Except.error e => Except.error e
              | Except.ok f5 =>
                match CondBr f5 c1 condVal pThen.2 pNext.2 with
                | Except.error e => Except.error e
                | Except.ok f6 => Except.ok (f6, pNext.2)
termination_by structural fuel => fuel

/-- controlflow.rs `trans_while`: early return on an unreachable block;
creates the `while_exit`, `while_cond` and `while_body` blocks, pushes a loop
scope with break target = exit and continue target = cond, branches into cond,
resolves the loop's break-cleanup block, lowers the condition and emits the
conditional branch to body or the break-cleanup block, lowers the body with
destination ignored, branches back to cond, pops the loop scope and returns
the exit block. -/
def trans_while : Nat → Tcx → FCx → Nat → Nat → Expr → Blk → Except String (FCx × Nat)
  | 0, _, _, _, _, _, _ => Except.error "fuel exhausted"
  | fuel+1, tcx, fcx, cur, loopId, cond, body =>
    if (getBl fcx cur).unreachable then Except.ok (fcx, cur)
    else
      let pNext := new_id_block fcx "while_exit" loopId
      let pCond := new_id_block pNext.1 "while_cond" (exprId cond)
      let pBody := new_id_block pCond.1 "while_body" (blkId body)
      let f4 := push_loop_cleanup_scope pBody.1 loopId pNext.2 pCond.2
      match Br f4 cur pCond.2 with
      | Except.error e => Except.error e
      | Except.ok f5 =>
        match normal_exit_block f5 loopId EXIT_BREAK with
        | Except.error e => Except.error e
        | Except.ok (f6, cleanupB) =>
          match expr_trans fuel tcx f6 pCond.2 cond with
          | Except.error e => Except.error e
          | Except.ok (f7, condOut, condVal) =>
            match CondBr f7 condOut condVal pBody.2 cleanupB with
            | Except.error e => Except.error e
            | Except.ok f8 =>
              match trans_block fuel tcx f8 pBody.2 body Dest.ignore with
              | Except.error e => Except.error e
              | Except.ok (f9, bodyOut) =>
                match Br f9 bodyOut pCond.2 with
                | Except.error e => Except.error e
                | Except.ok f10 =>
                  match pop_loop_cleanup_scope f10 loopId with
                  | Except.error e => Except.error e
                  | Except.ok f11 => Except.ok (f11, pNext.2)
termination_by structural fuel => fuel

/-- controlflow.rs `trans_loop`: early return on an unreachable block; creates
the `loop_exit` and `loop_body` blocks, pushes a loop scope with break target
= exit and continue target = body, branches into body, lowers it with
destination ignored, branches back to body, pops the loop scope; if the exit
block has no predecessor, marks it unreachable; returns the exit block. -/
def trans_loop : Nat → Tcx → FCx → Nat → Nat → Blk → Except String (FCx × Nat)
  | 0, _, _, _, _, _ => Except.error "fuel exhausted"
  | fuel+1, tcx, fcx, cur, loopId, body =>
    if (getBl fcx cur).unreachable then Except.ok (fcx, cur)
    else
      let pNext := new_id_block fcx "loop_exit" loopId
      let pBody := new_id_block pNext.1 "loop_body" (blkId body)
      let f3 := push_loop_cleanup_scope pBody.1 loopId pNext.2 pBody.2
      match Br f3 cur pBody.2 with
      | Except.error e => Except.error e
      | Except.ok f4 =>
        match trans_block fuel tcx f4 pBody.2 body Dest.ignore with
        | Except.error e => Except.error e
        | Except.ok (f5, bodyOut) =>
          match Br f5 bodyOut pBody.2 with
          | Except.error e => Except.error e
          | Except.ok f6 =>
            match pop_loop_cleanup_scope f6 loopId with
            | Except.error e => Except.error e
            | Except.ok f7 =>
              if (preds f7 pNext.2).isEmpty then
                Except.ok (Unreachable f7 pNext.2, pNext.2)
              else Except.ok (f7, pNext.2)
termination_by structural fuel => fuel

/-- controlflow.rs `trans_ret`: early return on an unreachable block; the
destination is the function's return slot when both a return slot and a
return expression exist, otherwise ignored; lowers the return expression into
it, additionally storing the slot into the return pointer when the calling
convention needs return allocas; branches to the shared return-cleanup exit
block and marks the current block unreachable. -/
def trans_ret : Nat → Tcx → FCx → Nat → Nat → OptE → Except String (FCx × Nat)
  | 0, _, _, _, _, _ => Except.error "fuel exhausted"
  | fuel+1, tcx, fcx, cur, _retId, retvalExpr =>
    if (getBl fcx cur).unreachable then Except.ok (fcx, cur)
    else
      let pd : FCx × Dest := retDest fcx retvalExpr
      match (match retvalExpr with
             | OptE.someE x =>
               match expr_trans_into fuel tcx pd.1 cur x pd.2 with
               | Except.error e => Except.error e
               | Except.ok (f2, c2) =>
                 match pd.2 with
                 | Dest.saveIn sl =>
                   if f2.needsRetAllocas then
                     Except.ok ((Store f2 c2 (Val.slot sl)
                       (Val.slot (f2.llretslotptr.getD 0))).1, c2)
                   else Except.ok (f2, c2)
                 | Dest.ignore => Except.ok (f2, c2)
             | OptE.noneE => Except.ok (pd.1, cur)) with
      | Except.error e => Except.error e
      | Except.ok (f3, c3) =>
        let cleanupB := return_exit_block f3
        match Br f3 c3 cleanupB with
        | Except.error e => Except.error e
        | Except.ok f4 => Except.ok (Unreachable f4 c3, c3)
termination_by structural fuel => fuel

/-- Modelled from the spec: expr.rs `trans_into` (not in src): dispatches
control-flow expressions to their controlflow.rs lowering routines and lowers
`simple` leaf expressions by emitting their instructions and storing their
value to the destination. -/
def expr_trans_into : Nat → Tcx → FCx → Nat → Expr → Dest → Except String (FCx × Nat)
  | 0, _, _, _, _, _ => Except.error "fuel exhausted"
  | fuel+1, tcx, fcx, cur, e, dest =>
    match e with
    | Expr.simple _ v cost =>
      let f1 := emitSimple fcx cur cost
      match dest with
      | Dest.saveIn p => Except.ok ((Store f1 cur v (Val.slot p)).1, cur)
      | Dest.ignore => Except.ok (f1, cur)
    | Expr.ifE id c thn els => trans_if fuel tcx fcx cur id c thn els dest
    | Expr.whileE id c b => trans_while fuel tcx fcx cur id c b
    | Expr.loopE id b => trans_loop fuel tcx fcx cur id b
    | Expr.breakE id lab => trans_break tcx fcx cur id lab
    | Expr.contE id lab => trans_cont tcx fcx cur id lab
    | Expr.retE id oe => trans_ret fuel tcx fcx cur id oe
    | Expr.blockE _ b => trans_block fuel tcx fcx cur b dest
termination_by structural fuel => fuel

/-- Modelled from the spec: expr.rs `trans` followed by `to_llbool` (not in
src): lowers an expression for its boolean value.  A `simple` leaf yields its
value (undef on an unreachable block, where its emission is suppressed);
control-flow expressions are lowered for effect and yield the nil value. -/
def expr_trans : Nat → Tcx → FCx → Nat → Expr → Except String (FCx × Nat × Val)
  | 0, _, _, _, _ => Except.error "fuel exhausted"
  | fuel+1, tcx, fcx, cur, e =>
    match e with
    | Expr.simple _ v cost =>
      if (getBl fcx cur).unreachable then Except.ok (fcx, cur, Val.undef)
      else Except.ok (emitSimple fcx cur cost, cur, v)
    | e2 =>
      match expr_trans_into fuel tcx fcx cur e2 Dest.ignore with
      | Except.error err => Except.error err
      | Except.ok (f2, c2) => Except.ok (f2, c2, Val.nilC)
termination_by structural fuel => fuel
end

/- ----------------------------------------------------------------------
Scope-stack lemmas
---------------------------------------------------------------------- -/

def CleanupScope.scopeId : CleanupScope → Nat
  | CleanupScope.astScope i _ => i
  | CleanupScope.loopScope i _ _ _ => i

def CleanupScope.isLoop : CleanupScope → Bool
  | CleanupScope.astScope _ _ => false
  | CleanupScope.loopScope _ _ _ _ => true

theorem findLoopExit_through (pre : List CleanupScope) (lid brk cont : Nat)
    (rest : List CleanupScope) (exit : Nat) (acc : List Nat)
    (hnc : ∀ s ∈ pre, s.pending = [])
    (hnid : ∀ s ∈ pre, s.isLoop = true → s.scopeId ≠ lid) :
    findLoopExit (pre ++ CleanupScope.loopScope lid brk cont [] :: rest) lid exit acc =
      some (acc, if exit = EXIT_BREAK then brk else cont) := by
  induction pre generalizing acc with
  | nil => simp [findLoopExit]
  | cons s pre ih =>
    cases s with
    | astScope i cs =>
      have hcs : cs = [] := hnc (CleanupScope.astScope i cs) (by simp)
      subst hcs
      simp only [List.cons_append, findLoopExit, List.append_nil]
      exact ih acc (fun s hs => hnc s (by simp [hs])) (fun s hs => hnid s (by simp [hs]))
    | loopScope i b c cs =>
      have hcs : cs = [] := hnc (CleanupScope.loopScope i b c cs) (by simp)
      have hne : i ≠ lid :=
        hnid (CleanupScope.loopScope i b c cs) (by simp) rfl
      subst hcs
      simp only [List.cons_append, findLoopExit, List.append_nil, if_neg hne]
      exact ih acc (fun s hs => hnc s (by simp [hs])) (fun s hs => hnid s (by simp [hs]))

theorem top_loop_scope_through (pre : List CleanupScope) (lid brk cont : Nat)
    (cl : List Nat) (rest : List CleanupScope)
    (h : ∀ s ∈ pre, s.isLoop = false) :
    top_loop_scope (pre ++ CleanupScope.loopScope lid brk cont cl :: rest) =
      Except.ok lid := by
  induction pre with
  | nil => simp [top_loop_scope]
  | cons s pre ih =>
    cases s with
    | astScope i cs =>
      simp only [List.cons_append, top_loop_scope]
      exact ih (fun s hs => h s (by simp [hs]))
    | loopScope i b c cs =>
      have := h (CleanupScope.loopScope i b c cs) (by simp)
      simp [CleanupScope.isLoop] at this

/- ----------------------------------------------------------------------
Claim C5: break and continue
---------------------------------------------------------------------- -/

/-- C5: lowering break or continue from a reachable block resolves the target
loop scope (the innermost loop scope when unlabeled, the scope named by the
def-map when labeled, a fatal error when the label is unresolved), emits a
branch to that scope's break-cleanup exit block for break or its
continue-cleanup exit block (the condition / re-entry block, never the break
target) for continue, and then marks the current block unreachable.  With no
pending cleanups between the current scope and the target, the cleanup exit
block is the scope's break or continue block itself. -/
theorem C5_break_cont (tcx : Tcx) (fcx : FCx) (cur : Nat) (bb : BB) (eid : Nat)
    (pre rest : List CleanupScope) (lid brk cont : Nat)
    (hbb : lookupBB fcx.blocks cur = some bb)
    (hre : bb.unreachable = false) (hnt : bb.terminated = false)
    (hsc : fcx.scopes = pre ++ CleanupScope.loopScope lid brk cont [] :: rest)
    (hnc : ∀ s ∈ pre, s.pending = []) :
    ((∀ s ∈ pre, s.isLoop = false) →
      ∀ exit,
        ∃ fcx2, trans_break_cont tcx fcx cur eid none exit = Except.ok (fcx2, cur) ∧
          lookupBB fcx2.blocks cur =
            some { bb with
                   terminated := true
                   unreachable := true
                   insns := bb.insns ++
                     [Instr.br (if exit = EXIT_BREAK then brk else cont)] }) ∧
    ((∀ s ∈ pre, s.isLoop = true → s.scopeId ≠ lid) →
      lookupDef tcx.defMap eid = some lid →
      ∀ lab exit,
        ∃ fcx2, trans_break_cont tcx fcx cur eid (some lab) exit = Except.ok (fcx2, cur) ∧
          lookupBB fcx2.blocks cur =
            some { bb with
                   terminated := true
                   unreachable := true
                   insns := bb.insns ++
                     [Instr.br (if exit = EXIT_BREAK then brk else cont)] }) ∧
    (lookupDef tcx.defMap eid = none →
      ∀ lab exit, trans_break_cont tcx fcx cur eid (some lab) exit =
        Except.error "in def-map for label") := by
  have hg : getBl fcx cur = bb := getBl_eq hbb
  have hmain : ∀ (hnid : ∀ s ∈ pre, s.isLoop = true → s.scopeId ≠ lid)
      (optl : Option Nat) (exit : Nat),
      (match optl with
       | none => top_loop_scope fcx.scopes
       | some _ =>
         match lookupDef tcx.defMap eid with
         | some loopId => Except.ok loopId
         | none => Except.error "in def-map for label") = Except.ok lid →
      ∃ fcx2, trans_break_cont tcx fcx cur eid optl exit = Except.ok (fcx2, cur) ∧
        lookupBB fcx2.blocks cur =
          some { bb with
                 terminated := true
                 unreachable := true
                 insns := bb.insns ++
                   [Instr.br (if exit = EXIT_BREAK then brk else cont)] } := by
    intro hnid optl exit hres
    have hfind := findLoopExit_through pre lid brk cont rest exit [] hnc hnid
    refine ⟨Unreachable (emitI (terminate fcx cur) cur
              (Instr.br (if exit = EXIT_BREAK then brk else cont))) cur, ?_, ?_⟩
    · simp only [trans_break_cont, hg, hre, Bool.false_eq_true, if_false]
      rw [hres]
      simp only [normal_exit_block, hsc, hfind]
      simp only [Br, check_not_terminated, hg, hre, hnt, Bool.false_eq_true, if_false]
    · have hlk : lookupBB (emitI (terminate fcx cur) cur
          (Instr.br (if exit = EXIT_BREAK then brk else cont))).blocks cur =
          some { bb with
                 terminated := true
                 insns := bb.insns ++
                   [Instr.br (if exit = EXIT_BREAK then brk else cont)] } := by
        simp [lookupBB_emitI, lookupBB_terminate, hbb]
      simp [Unreachable, getBl, hlk, hre, lookupBB_updateBB_self]
  refine ⟨?_, ?_, ?_⟩
  · intro hnl exit
    have htop : top_loop_scope fcx.scopes = Except.ok lid := by
      rw [hsc]
      exact top_loop_scope_through pre lid brk cont [] rest hnl
    exact hmain (fun s hs hl => absurd (hnl s hs) (by simp [hl])) none exit (by simp [htop])
  · intro hnid hdef lab exit
    exact hmain hnid (some lab) exit (by simp [hdef])
  · intro hdef lab exit
    simp only [trans_break_cont, hg, hre, Bool.false_eq_true, if_false, hdef]

/-- A concrete context for the break / continue witness: an ast scope nested
inside loop scope 5 whose break block is 7 and continue block is 8. -/
def fcxC5 : FCx :=
  { nextBlk := 9, blocks := [(0, BB.mk "" false false [])],
    scopes := [CleanupScope.astScope 9 [], CleanupScope.loopScope 5 7 8 []],
    llretslotptr := none, needsRetAllocas := false, retExit := 99,
    nextVal := 0, items := [] }

def tcxC5 : Tcx := { zeroSized := [], needsDrop := [], cfgReachable := none, defMap := [(40, 5)] }

/-- Witness for C5: a labeled continue (`continue 'outer`) resolving through
the def-map to loop scope 5 and branching to its continue block 8. -/
theorem C5_witness :
    ∃ fcx2, trans_break_cont tcxC5 fcxC5 0 40 (some 0) EXIT_LOOP = Except.ok (fcx2, 0) ∧
      lookupBB fcx2.blocks 0 =
        some { BB.mk "" false false [] with
               terminated := true
               unreachable := true
               insns := (BB.mk "" false false []).insns ++
                 [Instr.br (if EXIT_LOOP = EXIT_BREAK then 7 else 8)] } :=
  (C5_break_cont tcxC5 fcxC5 0 (BB.mk "" false false []) 40
      [CleanupScope.astScope 9 []] [] 5 7 8 rfl rfl rfl rfl
      (by intro s hs; simp at hs; subst hs; rfl)).2.1
    (by intro s hs hl; simp at hs; subst hs; simp [CleanupScope.isLoop] at hl)
    rfl 0 EXIT_LOOP

/- ----------------------------------------------------------------------
Claim C2: destination downgrade for unreachable / zero-sized trailing
expressions
---------------------------------------------------------------------- -/

/-- C2: lowering a block whose trailing expression is present but marked
unreachable by the function's reachability analysis (or whose static type is
zero-sized) downgrades a caller-supplied save-into destination to ignored and
proceeds exactly as lowering with destination ignored — no store into the
caller's destination and no error introduced by the destination. -/
theorem C2_dest_downgrade (fuel : Nat) (tcx : Tcx) (fcx : FCx) (cur : Nat)
    (bid : Nat) (stmts : Stmts) (e : Expr) (p : Nat)
    (h : (∃ reach, tcx.cfgReachable = some reach ∧ reach.contains (exprId e) = false) ∨
         tcx.zeroSized.contains bid = true) :
    trans_block fuel tcx fcx cur (Blk.mk bid stmts (OptE.someE e)) (Dest.saveIn p) =
      trans_block fuel tcx fcx cur (Blk.mk bid stmts (OptE.someE e)) Dest.ignore := by
  have hbd : blockDest tcx bid (OptE.someE e) (Dest.saveIn p) = Dest.ignore := by
    rcases h with ⟨reach, hr, hc⟩ | hz
    · simp at hc
      by_cases hz2 : bid ∈ tcx.zeroSized
      · simp [blockDest, isNoneE, hz2]
      · simp [blockDest, isNoneE, hz2, hr, optEId, hc]
    · simp at hz
      simp [blockDest, isNoneE, hz]
  have hbi : blockDest tcx bid (OptE.someE e) Dest.ignore = Dest.ignore := by
    simp [blockDest]
  cases fuel with
  | zero => rfl
  | succ n =>
    simp only [trans_block, hbd, hbi]

/-- A concrete context and type context for the C2 witness: a reachability
analysis that marks node 2 (the trailing expression) unreachable. -/
def tcxC2 : Tcx := { zeroSized := [], needsDrop := [], cfgReachable := some [], defMap := [] }

/-- Witness for C2 at a concrete block with trailing expression node 2. -/
theorem C2_witness :
    trans_block 3 tcxC2 openFcx 0
        (Blk.mk 1 Stmts.nil (OptE.someE (Expr.simple 2 (Val.reg 0) 1))) (Dest.saveIn 4) =
      trans_block 3 tcxC2 openFcx 0
        (Blk.mk 1 Stmts.nil (OptE.someE (Expr.simple 2 (Val.reg 0) 1))) Dest.ignore :=
  C2_dest_downgrade 3 tcxC2 openFcx 0 1 Stmts.nil (Expr.simple 2 (Val.reg 0) 1) 4
    (Or.inl ⟨[], rfl, rfl⟩)

/- ----------------------------------------------------------------------
State evolution along lowering
---------------------------------------------------------------------- -/

theorem updateBB_keys (bs : List (Nat × BB)) (i : Nat) (f : BB → BB) :
    (updateBB bs i f).map Prod.fst = bs.map Prod.fst := by
  induction bs with
  | nil => rfl
  | cons p rest ih => by_cases h : p.1 = i <;> simp [updateBB, h, ih]

theorem lookupBB_updateBB_other {i j : Nat} (h : i ≠ j) (bs : List (Nat × BB)) (f : BB → BB) :
    lookupBB (updateBB bs i f) j = lookupBB bs j := by
  induction bs with
  | nil => rfl
  | cons p rest ih =>
    have hji : j ≠ i := Ne.symm h
    by_cases hp : p.1 = i
    · have hpj : p.1 ≠ j := by omega
      simp [updateBB, lookupBB, hp, hpj, ih, h, hji]
    · by_cases hq : p.1 = j <;> simp [updateBB, lookupBB, hp, hq, ih, h, hji]

theorem lookupBB_append_left {bs : List (Nat × BB)} {i : Nat} {b : BB}
    (h : lookupBB bs i = some b) (l : List (Nat × BB)) :
    lookupBB (bs ++ l) i = some b := by
  induction bs with
  | nil => simp [lookupBB] at h
  | cons p rest ih =>
    by_cases hp : p.1 = i
    · simpa [lookupBB, hp] using h
    · simp only [lookupBB, if_neg hp] at h
      simp only [List.cons_append, lookupBB, if_neg hp]
      exact ih h

/-- Arena freshness: every allocated block id is below the next-block
counter. -/
def wfBlocks (f : FCx) : Prop := ∀ q ∈ f.blocks, q.1 < f.nextBlk

/-- State evolution along lowering: the next-block counter never decreases,
already-allocated blocks stay allocated, and arena freshness is preserved. -/
def evolves (f g : FCx) : Prop :=
  f.nextBlk ≤ g.nextBlk ∧
  (∀ i b, lookupBB f.blocks i = some b → ∃ b2, lookupBB g.blocks i = some b2) ∧
  (wfBlocks f → wfBlocks g)

theorem evolves_refl (f : FCx) : evolves f f :=
  ⟨le_refl _, fun _ b h => ⟨b, h⟩, id⟩

theorem evolves_trans {f g h : FCx} (h1 : evolves f g) (h2 : evolves g h) : evolves f h := by
  refine ⟨le_trans h1.1 h2.1, ?_, fun hw => h2.2.2 (h1.2.2 hw)⟩
  intro i b hb
  obtain ⟨b2, hb2⟩ := h1.2.1 i b hb
  exact h2.2.1 i b2 hb2

theorem evolves_of_eq {f g : FCx} (hb : g.blocks = f.blocks) (hn : g.nextBlk = f.nextBlk) :
    evolves f g := by
  refine ⟨le_of_eq hn.symm, fun i b h => ⟨b, by rw [hb]; exact h⟩, ?_⟩
  intro hw q hq
  rw [hb] at hq
  rw [hn]
  exact hw q hq

theorem evolves_updateBlocks (f : FCx) (i : Nat) (g : BB → BB) :
    evolves f { f with blocks := updateBB f.blocks i g } := by
  refine ⟨le_refl _, ?_, ?_⟩
  · intro j b h
    by_cases hij : i = j
    · subst hij
      exact ⟨g b, by simp [lookupBB_updateBB_self, h]⟩
    · exact ⟨b, by simpa [lookupBB_updateBB_other hij] using h⟩
  · intro hw q hq
    simp only at hq
    have hm : q.1 ∈ (updateBB f.blocks i g).map Prod.fst := List.mem_map_of_mem _ hq
    rw [updateBB_keys] at hm
    obtain ⟨q0, hq0, he⟩ := List.mem_map.mp hm
    simp only
    rw [← he]
    exact hw q0 hq0

theorem evolves_emitI (f : FCx) (c : Nat) (i : Instr) : evolves f (emitI f c i) :=
  evolves_updateBlocks f c _

theorem evolves_terminate (f : FCx) (c : Nat) : evolves f (terminate f c) :=
  evolves_updateBlocks f c _

theorem evolves_Unreachable (f : FCx) (c : Nat) : evolves f (Unreachable f c) := by
  simp only [Unreachable]
  split
  · exact evolves_refl f
  · split
    · exact evolves_updateBlocks f c _
    · exact evolves_trans (evolves_updateBlocks f c _) (evolves_emitI _ c _)

theorem evolves_Br {f g : FCx} {c d : Nat} (h : Br f c d = Except.ok g) : evolves f g := by
  unfold Br at h
  split at h
  · cases h
    exact evolves_refl f
  · split at h
    · cases h
    · cases h
      exact evolves_trans (evolves_terminate f c) (evolves_emitI _ c _)

theorem evolves_CondBr {f g : FCx} {c : Nat} {v : Val} {t e : Nat}
    (h : CondBr f c v t e = Except.ok g) : evolves f g := by
  unfold CondBr at h
  split at h
  · cases h
    exact evolves_refl f
  · split at h
    · cases h
    · cases h
      exact evolves_trans (evolves_terminate f c) (evolves_emitI _ c _)

theorem evolves_freshVal (f : FCx) : evolves f (freshVal f).1 :=
  evolves_of_eq rfl rfl

theorem evolves_Store (f : FCx) (c : Nat) (v p : Val) : evolves f (Store f c v p).1 := by
  unfold Store
  split
  · exact evolves_refl f
  · exact evolves_trans (evolves_freshVal f) (evolves_emitI _ c _)

theorem evolves_new_id_block (f : FCx) (n : String) (id : Nat) :
    evolves f (new_id_block f n id).1 := by
  refine ⟨by simp [new_id_block], ?_, ?_⟩
  · intro i b h
    exact ⟨b, lookupBB_append_left h _⟩
  · intro hw q hq
    simp only [new_id_block, List.mem_append, List.mem_singleton] at hq
    simp only [new_id_block]
    rcases hq with hq | hq
    · exact lt_trans (hw q hq) (Nat.lt_succ_self _)
    · subst hq
      exact Nat.lt_succ_self _

theorem evolves_foldl_emitI (f : FCx) (c : Nat) (cs : List Nat) :
    evolves f (cs.foldl (fun g n => emitI g c (Instr.cleanupI n)) f) := by
  induction cs generalizing f with
  | nil => exact evolves_refl f
  | cons a l ih => exact evolves_trans (evolves_emitI f c _) (ih _)

theorem evolves_emitCleanups (f : FCx) (c : Nat) (cs : List Nat) :
    evolves f (emitCleanups f c cs) := by
  unfold emitCleanups
  split
  · exact evolves_refl f
  · exact evolves_foldl_emitI f c cs

theorem evolves_pop_ast {f g : FCx} {c c2 : Nat}
    (h : pop_and_trans_ast_cleanup_scope f c = Except.ok (g, c2)) : evolves f g ∧ c2 = c := by
  unfold pop_and_trans_ast_cleanup_scope at h
  split at h
  · cases h
  · rename_i s rest heq
    cases h
    exact ⟨evolves_trans (evolves_of_eq (g := { f with scopes := rest }) rfl rfl)
      (evolves_emitCleanups { f with scopes := rest } c s.pending), rfl⟩

theorem evolves_pop_loop {f g : FCx} {i : Nat}
    (h : pop_loop_cleanup_scope f i = Except.ok g) : evolves f g := by
  unfold pop_loop_cleanup_scope at h
  split at h
  · rename_i id2 bb cc cs rest heq
    split at h
    · cases h
      exact evolves_of_eq (g := { f with scopes := rest }) rfl rfl
    · cases h
  · cases h

theorem evolves_push_ast (f : FCx) (i : Nat) : evolves f (push_ast_cleanup_scope f i) :=
  evolves_of_eq rfl rfl

theorem evolves_push_loop (f : FCx) (i b c : Nat) :
    evolves f (push_loop_cleanup_scope f i b c) :=
  evolves_of_eq rfl rfl

theorem evolves_normal_exit {f g : FCx} {lid ex t : Nat}
    (h : normal_exit_block f lid ex = Except.ok (g, t)) : evolves f g := by
  unfold normal_exit_block at h
  split at h
  · cases h
  · cases h
    exact evolves_refl f
  · cases h
    exact evolves_trans (evolves_new_id_block f _ _)
      (evolves_trans (evolves_foldl_emitI _ _ _) (evolves_emitI _ _ _))

theorem evolves_brAll : ∀ {l : List Nat} {f g : FCx} {j : Nat},
    brAll f l j = Except.ok g → evolves f g := by
  intro l
  induction l with
  | nil =>
    intro f g j h
    cases h
    exact evolves_refl f
  | cons b rest ih =>
    intro f g j h
    unfold brAll at h
    split at h
    · cases h
    · rename_i f2 hbr
      exact evolves_trans (evolves_Br hbr) (ih h)

theorem evolves_join_blocks {f g : FCx} {id : Nat} {ins : List Nat} {j : Nat}
    (h : join_blocks f id ins = Except.ok (g, j)) : evolves f g := by
  simp only [join_blocks] at h
  split at h
  · cases h
  · rename_i f2 hball
    cases h
    exact evolves_trans (evolves_new_id_block f _ _) (evolves_brAll hball)

theorem evolves_emitGeneric (f : FCx) (c : Nat) : ∀ n, evolves f (emitGeneric f c n)
  | 0 => evolves_refl f
  | n+1 => evolves_trans (evolves_emitGeneric f c n) (evolves_emitI _ c _)

theorem evolves_emitSimple (f : FCx) (c n : Nat) : evolves f (emitSimple f c n) := by
  unfold emitSimple
  split
  · exact evolves_refl f
  · exact evolves_emitGeneric f c n

theorem evolves_get_ret_slot (f : FCx) : evolves f (get_ret_slot f).1 := by
  unfold get_ret_slot
  split
  · exact evolves_of_eq rfl rfl
  · exact evolves_refl f

theorem evolves_freshSlot (f : FCx) : evolves f (freshSlot f).1 :=
  evolves_of_eq rfl rfl

theorem evolves_schedule_drop (f : FCx) (n : Nat) : evolves f (schedule_drop f n) := by
  unfold schedule_drop
  split
  · exact evolves_refl f
  · exact evolves_of_eq rfl rfl
  · exact evolves_of_eq rfl rfl

theorem evolves_trans_break_cont {tcx : Tcx} {f g : FCx} {c eid : Nat} {lab : Option Nat}
    {ex c2 : Nat} (h : trans_break_cont tcx f c eid lab ex = Except.ok (g, c2)) :
    evolves f g := by
  unfold trans_break_cont at h
  split at h
  · cases h
    exact evolves_refl f
  · split at h
    · cases h
    · split at h
      · cases h
      · rename_i f1 cb hne
        split at h
        · cases h
        · rename_i f2 hbr
          cases h
          exact evolves_trans (evolves_normal_exit hne)
            (evolves_trans (evolves_Br hbr) (evolves_Unreachable f2 c))

theorem evolves_visitExprItems (f : FCx) (e : Expr) : evolves f (visitExprItems f e) :=
  evolves_of_eq rfl rfl

theorem evolves_visitBlkItems (f : FCx) (b : Blk) : evolves f (visitBlkItems f b) :=
  evolves_of_eq rfl rfl

/-- Every lowering routine only grows the block arena: the next-block counter
never decreases, every allocated block stays allocated, and freshness is
preserved. -/
theorem trans_evolves : ∀ fuel : Nat,
    (∀ tcx f c s g c2, trans_stmt fuel tcx f c s = Except.ok (g, c2) → evolves f g) ∧
    (∀ tcx f c e g c2, trans_stmt_semi fuel tcx f c e = Except.ok (g, c2) → evolves f g) ∧
    (∀ tcx f c e g c2, trans_to_lvalue fuel tcx f c e = Except.ok (g, c2) → evolves f g) ∧
    (∀ tcx f c lid e g c2, init_local fuel tcx f c lid e = Except.ok (g, c2) → evolves f g) ∧
    (∀ tcx f c ss g c2, trans_stmts fuel tcx f c ss = Except.ok (g, c2) → evolves f g) ∧
    (∀ tcx f c b d g c2, trans_block fuel tcx f c b d = Except.ok (g, c2) → evolves f g) ∧
    (∀ tcx f c i cond thn els d g c2,
      trans_if fuel tcx f c i cond thn els d = Except.ok (g, c2) → evolves f g) ∧
    (∀ tcx f c i cond body g c2,
      trans_while fuel tcx f c i cond body = Except.ok (g, c2) → evolves f g) ∧
    (∀ tcx f c i body g c2, trans_loop fuel tcx f c i body = Except.ok (g, c2) → evolves f g) ∧
    (∀ tcx f c i oe g c2, trans_ret fuel tcx f c i oe = Except.ok (g, c2) → evolves f g) ∧
    (∀ tcx f c e d g c2, expr_trans_into fuel tcx f c e d = Except.ok (g, c2) → evolves f g) ∧
    (∀ tcx f c e g c2 v, expr_trans fuel tcx f c e = Except.ok (g, c2, v) → evolves f g) := by
  intro fuel
  induction fuel with
  | zero =>
    refine ⟨fun tcx f c s g c2 h => ?_, fun tcx f c e g c2 h => ?_,
            fun tcx f c e g c2 h => ?_, fun tcx f c lid e g c2 h => ?_,
            fun tcx f c ss g c2 h => ?_, fun tcx f c b d g c2 h => ?_,
            fun tcx f c i cond thn els d g c2 h => ?_,
            fun tcx f c i cond body g c2 h => ?_, fun tcx f c i body g c2 h => ?_,
            fun tcx f c i oe g c2 h => ?_, fun tcx f c e d g c2 h => ?_,
            fun tcx f c e g c2 v h => ?_⟩ <;>
      simp [trans_stmt, trans_stmt_semi, trans_to_lvalue, init_local, trans_stmts,
        trans_block, trans_if, trans_while, trans_loop, trans_ret, expr_trans_into,
        expr_trans] at h
  | succ n ih =>
    obtain ⟨ihStmt, ihSemi, ihLv, ihInit, ihStmts, ihBlock, ihIf, ihWhile, ihLoop,
      ihRet, ihInto, ihTrans⟩ := ih
    refine ⟨?_, ?_, ?_, ?_, ?_, ?_, ?_, ?_, ?_, ?_, ?_, ?_⟩
    · -- trans_stmt
      intro tcx f c s g c2 h
      simp only [trans_stmt] at h
      split at h
      · cases h
        exact evolves_refl f
      · split at h
        · split at h
          · cases h
          · rename_i e f2 c2a hsem
            exact evolves_trans (evolves_push_ast f _)
              (evolves_trans (ihSemi _ _ _ _ _ _ hsem) (evolves_pop_ast h).1)
        · split at h
          · cases h
          · rename_i lid init f2 c2a hini
            exact evolves_trans (evolves_push_ast f _)
              (evolves_trans (ihInit _ _ _ _ _ _ _ hini) (evolves_pop_ast h).1)
        · exact evolves_trans (evolves_push_ast f _) (evolves_pop_ast h).1
    · -- trans_stmt_semi
      intro tcx f c e g c2 h
      simp only [trans_stmt_semi] at h
      split at h
      · cases h
        exact evolves_refl f
      · split at h
        · exact ihLv _ _ _ _ _ _ h
        · exact ihInto _ _ _ _ _ _ _ h
    · -- trans_to_lvalue
      intro tcx f c e g c2 h
      simp only [trans_to_lvalue] at h
      exact evolves_trans (evolves_freshSlot f) (ihInto _ _ _ _ _ _ _ h)
    · -- init_local
      intro tcx f c lid e g c2 h
      simp only [init_local] at h
      split at h
      · cases h
      · rename_i f2 c2a hinto
        cases h
        refine evolves_trans (evolves_freshSlot f)
          (evolves_trans (ihInto _ _ _ _ _ _ _ hinto) ?_)
        split
        · exact evolves_schedule_drop f2 lid
        · exact evolves_refl f2
    · -- trans_stmts
      intro tcx f c ss g c2 h
      cases ss with
      | nil =>
        simp only [trans_stmts] at h
        cases h
        exact evolves_refl f
      | cons s rest =>
        simp only [trans_stmts] at h
        split at h
        · cases h
        · rename_i f2 c2a hst
          exact evolves_trans (ihStmt _ _ _ _ _ _ hst) (ihStmts _ _ _ _ _ _ h)
    · -- trans_block
      intro tcx f c b d g c2 h
      cases b with
      | mk bid stmts bexpr =>
        simp only [trans_block] at h
        split at h
        · cases h
          exact evolves_refl f
        · split at h
          · cases h
          · rename_i f1 c1 hst
            have hbase := evolves_trans (evolves_push_ast f bid) (ihStmts _ _ _ _ _ _ hst)
            split at h
            · split at h
              · exact evolves_trans hbase (evolves_pop_ast h).1
              · split at h
                · cases h
                · rename_i e he f2 c2a hinto
                  exact evolves_trans hbase
                    (evolves_trans (ihInto _ _ _ _ _ _ _ hinto) (evolves_pop_ast h).1)
            · split at h
              · exact evolves_trans hbase (evolves_pop_ast h).1
              · cases h
    · -- trans_if
      intro tcx f c i cond thn els d g c2 h
      simp only [trans_if] at h
      split at h
      · cases h
        exact evolves_refl f
      · split at h
        · cases h
        · rename_i f1 c1 condVal htr
          have hbase := ihTrans _ _ _ _ _ _ _ htr
          split at h
          · split at h
            · -- constant true: visit els items, lower thn
              refine evolves_trans hbase ?_
              split at h
              · exact evolves_trans (evolves_visitExprItems f1 _) (ihBlock _ _ _ _ _ _ _ h)
              · exact ihBlock _ _ _ _ _ _ _ h
            · -- constant false: visit thn items, lower els
              split at h
              · exact evolves_trans hbase
                  (evolves_trans (evolves_visitBlkItems f1 thn) (ihInto _ _ _ _ _ _ _ h))
              · cases h
                exact evolves_trans hbase (evolves_visitBlkItems f1 thn)
          · -- runtime branch
            split at h
            · cases h
            · rename_i f3 thenOut hblk
              have hthen := evolves_trans hbase
                (evolves_trans (evolves_new_id_block f1 "then-block" (blkId thn))
                  (ihBlock _ _ _ _ _ _ _ hblk))
              split at h
              · rename_i ee
                split at h
                · cases h
                · rename_i f5 elseOut hinto
                  split at h
                  · cases h
                  · rename_i f6 nextB hjoin
                    split at h
                    · cases h
                    · rename_i f7 hcbr
                      cases h
                      exact evolves_trans hthen
                        (evolves_trans (evolves_new_id_block f3 "else-block" (exprId ee))
                          (evolves_trans (ihInto _ _ _ _ _ _ _ hinto)
                            (evolves_trans (evolves_join_blocks hjoin) (evolves_CondBr hcbr))))
              · split at h
                · cases h
                · rename_i f5 hbr
                  split at h
                  · cases h
                  · rename_i f6 hcbr
                    cases h
                    exact evolves_trans hthen
                      (evolves_trans (evolves_new_id_block f3 "next-block" i)
                        (evolves_trans (evolves_Br hbr) (evolves_CondBr hcbr)))
    · -- trans_while
      intro tcx f c i cond body g c2 h
      simp only [trans_while] at h
      split at h
      · cases h
        exact evolves_refl f
      · split at h
        · cases h
        · rename_i f5 hbr
          split at h
          · cases h
          · rename_i f6 cleanupB hne
            split at h
            · cases h
            · rename_i f7 condOut condVal htr
              split at h
              · cases h
              · rename_i f8 hcbr
                split at h
                · cases h
                · rename_i f9 bodyOut hblk
                  split at h
                  · cases h
                  · rename_i f10 hbr2
                    split at h
                    · cases h
                    · rename_i f11 hpop
                      cases h
                      refine evolves_trans ?_ (evolves_pop_loop hpop)
                      refine evolves_trans ?_ (evolves_Br hbr2)
                      refine evolves_trans ?_ (ihBlock _ _ _ _ _ _ _ hblk)
                      refine evolves_trans ?_ (evolves_CondBr hcbr)
                      refine evolves_trans ?_ (ihTrans _ _ _ _ _ _ _ htr)
                      refine evolves_trans ?_ (evolves_normal_exit hne)
                      refine evolves_trans ?_ (evolves_Br hbr)
                      refine evolves_trans ?_ (evolves_push_loop _ _ _ _)
                      refine evolves_trans ?_ (evolves_new_id_block _ _ _)
                      exact evolves_trans (evolves_new_id_block _ _ _) (evolves_new_id_block _ _ _)
    · -- trans_loop
      intro tcx f c i body g c2 h
      simp only [trans_loop] at h
      split at h
      · cases h
        exact evolves_refl f
      · split at h
        · cases h
        · rename_i f4 hbr
          split at h
          · cases h
          · rename_i f5 bodyOut hblk
            split at h
            · cases h
            · rename_i f6 hbr2
              split at h
              · cases h
              · rename_i f7 hpop
                have hchain : evolves f f7 := by
                  refine evolves_trans ?_ (evolves_pop_loop hpop)
                  refine evolves_trans ?_ (evolves_Br hbr2)
                  refine evolves_trans ?_ (ihBlock _ _ _ _ _ _ _ hblk)
                  refine evolves_trans ?_ (evolves_Br hbr)
                  refine evolves_trans ?_ (evolves_push_loop _ _ _ _)
                  exact evolves_trans (evolves_new_id_block _ _ _) (evolves_new_id_block _ _ _)
                split at h
                · cases h
                  exact evolves_trans hchain (evolves_Unreachable f7 _)
                · cases h
                  exact hchain
    · -- trans_ret
      intro tcx f c i oe g c2 h
      simp only [trans_ret] at h
      split at h
      · cases h
        exact evolves_refl f
      · have hpd : evolves f (retDest f oe).1 := by
          unfold retDest
          split
          · exact evolves_get_ret_slot f
          · exact evolves_refl f
        split at h
        · cases h
        · rename_i f3 c3 hmid
          split at h
          · cases h
          · rename_i f4 hbr
            cases h
            refine evolves_trans ?_
              (evolves_trans (evolves_Br hbr) (evolves_Unreachable _ _))
            split at hmid
            · rename_i x
              split at hmid
              · cases hmid
              · rename_i f2 c2a hinto
                refine evolves_trans hpd (evolves_trans (ihInto _ _ _ _ _ _ _ hinto) ?_)
                split at hmid
                · split at hmid
                  · cases hmid
                    exact evolves_Store _ _ _ _
                  · cases hmid
                    exact evolves_refl _
                · cases hmid
                  exact evolves_refl _
            · cases hmid
              exact hpd
    · -- expr_trans_into
      intro tcx f c e d g c2 h
      cases e with
      | simple i v cost =>
        simp only [expr_trans_into] at h
        split at h
        · rename_i p
          cases h
          exact evolves_trans (evolves_emitSimple f c cost) (evolves_Store _ c v (Val.slot p))
        · cases h
          exact evolves_emitSimple f c cost
      | ifE i cnd thn els =>
        simp only [expr_trans_into] at h
        exact ihIf _ _ _ _ _ _ _ _ _ _ h
      | whileE i cnd b =>
        simp only [expr_trans_into] at h
        exact ihWhile _ _ _ _ _ _ _ _ h
      | loopE i b =>
        simp only [expr_trans_into] at h
        exact ihLoop _ _ _ _ _ _ _ h
      | breakE i lab =>
        simp only [expr_trans_into, trans_break] at h
        exact evolves_trans_break_cont h
      | contE i lab =>
        simp only [expr_trans_into, trans_cont] at h
        exact evolves_trans_break_cont h
      | retE i oe =>
        simp only [expr_trans_into] at h
        exact ihRet _ _ _ _ _ _ _ h
      | blockE i b =>
        simp only [expr_trans_into] at h
        exact ihBlock _ _ _ _ _ _ _ h
    · -- expr_trans
      intro tcx f c e g c2 v h
      cases e with
      | simple i v0 cost =>
        simp only [expr_trans] at h
        split at h
        · cases h
          exact evolves_refl f
        · cases h
          exact evolves_emitSimple f c cost
      | ifE i cnd thn els =>
        simp only [expr_trans] at h
        split at h
        · cases h
        · rename_i f2 c2a hinto
          cases h
          exact ihInto _ _ _ _ _ _ _ hinto
      | whileE i cnd b =>
        simp only [expr_trans] at h
        split at h
        · cases h
        · rename_i f2 c2a hinto
          cases h
          exact ihInto _ _ _ _ _ _ _ hinto
      | loopE i b =>
        simp only [expr_trans] at h
        split at h
        · cases h
        · rename_i f2 c2a hinto
          cases h
          exact ihInto _ _ _ _ _ _ _ hinto
      | breakE i lab =>
        simp only [expr_trans] at h
        split at h
        · cases h
        · rename_i f2 c2a hinto
          cases h
          exact ihInto _ _ _ _ _ _ _ hinto
      | contE i lab =>
        simp only [expr_trans] at h
        split at h
        · cases h
        · rename_i f2 c2a hinto
          cases h
          exact ihInto _ _ _ _ _ _ _ hinto
      | retE i oe =>
        simp only [expr_trans] at h
        split at h
        · cases h
        · rename_i f2 c2a hinto
          cases h
          exact ihInto _ _ _ _ _ _ _ hinto
      | blockE i b =>
        simp only [expr_trans] at h
        split at h
        · cases h
        · rename_i f2 c2a hinto
          cases h
          exact ihInto _ _ _ _ _ _ _ hinto

/- ----------------------------------------------------------------------
Claim C4: infinite loops mark their exit block unreachable
---------------------------------------------------------------------- -/

theorem lookupBB_append_fresh {bs : List (Nat × BB)} {k : Nat} (b : BB)
    (h : ∀ q ∈ bs, q.1 ≠ k) : lookupBB (bs ++ [(k, b)]) k = some b := by
  induction bs with
  | nil => simp [lookupBB]
  | cons p rest ih =>
    have hp : p.1 ≠ k := h p (by simp)
    simp only [List.cons_append, lookupBB, if_neg hp]
    exact ih (fun q hq => h q (by simp [hq]))

/-- The mark-unreachable operation leaves the block with its unreachable flag
set whenever the block is allocated. -/
theorem Unreachable_marks {f : FCx} {k : Nat} {b : BB}
    (h : lookupBB f.blocks k = some b) :
    (getBl (Unreachable f k) k).unreachable = true := by
  have hg : getBl f k = b := getBl_eq h
  simp only [Unreachable]
  split
  · rename_i hu
    exact hu
  · split
    · simp [getBl, lookupBB_updateBB_self, h]
    · simp [getBl, lookupBB_emitI, lookupBB_updateBB_self, h]

/-- C4: when an unconditional loop is lowered from a reachable block and the
returned exit block ends with no incoming edges (no break ever targeted it),
the exit block is marked unreachable, and consequently lowering any further
statement on the returned current block is suppressed, leaving the state
untouched. -/
theorem C4_infinite_loop (fuel : Nat) (tcx : Tcx) (fcx : FCx) (cur : Nat)
    (loopId : Nat) (body : Blk) (bb : BB) (fcx2 : FCx) (ret : Nat)
    (hwf : wfBlocks fcx)
    (hbb : lookupBB fcx.blocks cur = some bb) (hre : bb.unreachable = false)
    (hrun : trans_loop fuel tcx fcx cur loopId body = Except.ok (fcx2, ret))
    (hpreds : preds fcx2 ret = []) :
    (getBl fcx2 ret).unreachable = true ∧
    (∀ (fuel2 : Nat) (s : Stmt),
      trans_stmt (fuel2+1) tcx fcx2 ret s = Except.ok (fcx2, ret)) := by
  cases fuel with
  | zero => cases hrun
  | succ n =>
    obtain ⟨-, -, -, -, -, ihBlock, -⟩ := trans_evolves n
    simp only [trans_loop, getBl_eq hbb, hre, Bool.false_eq_true, if_false] at hrun
    split at hrun
    · cases hrun
    · rename_i f4 hbr
      split at hrun
      · cases hrun
      · rename_i f5 bodyOut hblk
        split at hrun
        · cases hrun
        · rename_i f6 hbr2
          split at hrun
          · cases hrun
          · rename_i f7 hpop
            have hex0 : lookupBB (new_id_block fcx "loop_exit" loopId).1.blocks
                fcx.nextBlk = some (BB.mk "loop_exit" false false []) := by
              simp only [new_id_block]
              exact lookupBB_append_fresh _ (fun q hq => Nat.ne_of_lt (hwf q hq))
            have hev : evolves (new_id_block fcx "loop_exit" loopId).1 f7 := by
              refine evolves_trans ?_ (evolves_pop_loop hpop)
              refine evolves_trans ?_ (evolves_Br hbr2)
              refine evolves_trans ?_ (ihBlock _ _ _ _ _ _ _ hblk)
              refine evolves_trans ?_ (evolves_Br hbr)
              exact evolves_trans (evolves_new_id_block _ _ _) (evolves_push_loop _ _ _ _)
            obtain ⟨b7, hb7⟩ := hev.2.1 fcx.nextBlk _ hex0
            split at hrun
            · cases hrun
              have h1 : (getBl (Unreachable f7 (new_id_block fcx "loop_exit" loopId).2)
                  (new_id_block fcx "loop_exit" loopId).2).unreachable = true :=
                Unreachable_marks hb7
              refine ⟨h1, ?_⟩
              intro fuel2 s
              simp [trans_stmt, h1]
            · rename_i hc
              cases hrun
              simp [hpreds] at hc

/-- The output state of the C4 witness run: an empty unconditional loop whose
exit block 1 is marked unreachable. -/
def fcxC4out : FCx :=
  { nextBlk := 3,
    blocks := [(0, BB.mk "" true false [Instr.br 2]),
               (1, BB.mk "loop_exit" false true [Instr.unreachableI]),
               (2, BB.mk "loop_body" true false [Instr.br 2])],
    scopes := [], llretslotptr := none, needsRetAllocas := false, retExit := 0,
    nextVal := 0, items := [] }

/-- Witness for C4: lowering an empty `loop` from block 0 of `openFcx` marks
its exit block 1 unreachable and suppresses further statements. -/
theorem C4_witness :
    (getBl fcxC4out 1).unreachable = true ∧
    (∀ (fuel2 : Nat) (s : Stmt),
      trans_stmt (fuel2+1) tcxC2 fcxC4out 1 s = Except.ok (fcxC4out, 1)) :=
  C4_infinite_loop 10 tcxC2 openFcx 0 5 (Blk.mk 10 Stmts.nil OptE.noneE)
    (BB.mk "" false false []) fcxC4out 1 (by unfold wfBlocks; decide) rfl rfl rfl (by decide)

/- ----------------------------------------------------------------------
Claim C3: constant-condition if elimination
---------------------------------------------------------------------- -/

/-- C3: when an if-expression's condition lowers to a compile-time constant
(non-undef) boolean and the current block is reachable, lowering emits no
conditional branch and creates no new basic blocks: it behaves exactly as
lowering only the statically taken branch into the destination, after
visiting the untaken branch solely for its nested item declarations. -/
theorem C3_const_if (fuel : Nat) (tcx : Tcx) (fcx : FCx) (cur : Nat)
    (ifId cid cost : Nat) (b : Bool) (thn : Blk) (els : OptE) (dest : Dest)
    (hre : (getBl fcx cur).unreachable = false) :
    trans_if (fuel+2) tcx fcx cur ifId (Expr.simple cid (Val.constBool b) cost) thn els dest =
      if b then
        trans_block (fuel+1) tcx
          (match els with
           | OptE.someE ee => visitExprItems (emitSimple fcx cur cost) ee
           | OptE.noneE => emitSimple fcx cur cost) cur thn dest
      else
        match els with
        | OptE.someE ee =>
          expr_trans_into (fuel+1) tcx (visitBlkItems (emitSimple fcx cur cost) thn) cur ee dest
        | OptE.noneE => Except.ok (visitBlkItems (emitSimple fcx cur cost) thn, cur) := by
  cases b with
  | true =>
    simp [trans_if, expr_trans, is_const, is_undef, const_to_uint, hre]
  | false =>
    simp only [trans_if, hre, Bool.false_eq_true, if_false, expr_trans,
      is_const, is_undef, Bool.not_false, Bool.and_self, const_to_uint, if_true]
    simp

/-- The untaken else-arm of the C3 witness: a block expression containing a
nested item declaration (item id 77). -/
def elsC3 : Expr :=
  Expr.blockE 3 (Blk.mk 4 (Stmts.cons (Stmt.declItem 5 77) Stmts.nil) OptE.noneE)

/-- Witness for C3: a constant-true condition lowers only the then-block and
visits the else-arm's item declaration. -/
theorem C3_witness :
    trans_if 5 tcxC2 openFcx 0 20 (Expr.simple 6 (Val.constBool true) 0)
        (Blk.mk 10 Stmts.nil OptE.noneE) (OptE.someE elsC3) Dest.ignore =
      if true then
        trans_block 4 tcxC2
          (match OptE.someE elsC3 with
           | OptE.someE ee => visitExprItems (emitSimple openFcx 0 0) ee
           | OptE.noneE => emitSimple openFcx 0 0) 0 (Blk.mk 10 Stmts.nil OptE.noneE)
          Dest.ignore
      else
        match OptE.someE elsC3 with
        | OptE.someE ee =>
          expr_trans_into 4 tcxC2
            (visitBlkItems (emitSimple openFcx 0 0) (Blk.mk 10 Stmts.nil OptE.noneE))
            0 ee Dest.ignore
        | OptE.noneE =>
          Except.ok (visitBlkItems (emitSimple openFcx 0 0) (Blk.mk 10 Stmts.nil OptE.noneE),
            0) :=
  C3_const_if 3 tcxC2 openFcx 0 20 6 0 true (Blk.mk 10 Stmts.nil OptE.noneE)
    (OptE.someE elsC3) Dest.ignore rfl

/- ----------------------------------------------------------------------
Claim C6: while-loop lowering
---------------------------------------------------------------------- -/

theorem Br_scopes {f g : FCx} {c d : Nat} (h : Br f c d = Except.ok g) :
    g.scopes = f.scopes := by
  unfold Br at h
  split at h
  · cases h
    rfl
  · split at h
    · cases h
    · cases h
      rfl

/-- With the target loop scope freshly on top of the stack and no pending
cleanups, the break-cleanup exit block is the loop's break target itself. -/
theorem normal_exit_block_top {f : FCx} {lid brk cont : Nat} {rest : List CleanupScope}
    (hs : f.scopes = CleanupScope.loopScope lid brk cont [] :: rest) :
    normal_exit_block f lid EXIT_BREAK = Except.ok (f, brk) := by
  simp [normal_exit_block, hs, findLoopExit]

/-- Sequencing lemma: branching, then resolving the break-cleanup block of
the loop scope on top of the stack (with no pending cleanups), is branching
and continuing with the loop's break target directly. -/
theorem normal_exit_seq (f4 : FCx) (cur condB loopId exitB : Nat)
    (rest : List CleanupScope) (k : FCx → Nat → Except String (FCx × Nat))
    (hs : f4.scopes = CleanupScope.loopScope loopId exitB condB [] :: rest) :
    (match Br f4 cur condB with
     | Except.error e => Except.error e
     | Except.ok f5 =>
       match normal_exit_block f5 loopId EXIT_BREAK with
       | Except.error e => Except.error e
       | Except.ok (f6, cleanupB) => k f6 cleanupB) =
    (match Br f4 cur condB with
     | Except.error e => Except.error e
     | Except.ok f5 => k f5 exitB) := by
  cases hbr : Br f4 cur condB with
  | error e => rfl
  | ok f5 =>
    show (match normal_exit_block f5 loopId EXIT_BREAK with
          | Except.error e => Except.error e
          | Except.ok (f6, cleanupB) => k f6 cleanupB) = k f5 exitB
    rw [normal_exit_block_top ((Br_scopes hbr).trans hs)]

/-- Modelled from the spec: the step-by-step description of While lowering.
It creates exactly three new blocks — exit (id `nextBlk`), cond (id
`nextBlk + 1`) and body (id `nextBlk + 2`) — pushes a loop scope whose break
target is the exit block and whose continue target is the cond block,
branches unconditionally from the origin into cond, lowers the condition and
conditionally branches from its end block to body or to the loop's
break-cleanup block (the exit block itself, the fresh loop scope having no
pending cleanups), lowers the body with destination ignored, branches from
the body's end back to cond, pops the loop scope, and returns the exit block
as the new current block. -/
def whileLoweringSpec (fuel : Nat) (tcx : Tcx) (fcx : FCx) (cur loopId : Nat)
    (cond : Expr) (body : Blk) : Except String (FCx × Nat) :=
  let exitB := fcx.nextBlk
  let condB := fcx.nextBlk + 1
  let bodyB := fcx.nextBlk + 2
  let f3 : FCx :=
    { fcx with nextBlk := fcx.nextBlk + 3,
               blocks := fcx.blocks ++
                 [(exitB, BB.mk "while_exit" false false []),
                  (condB, BB.mk "while_cond" false false []),
                  (bodyB, BB.mk "while_body" false false [])] }
  let f4 := { f3 with scopes := CleanupScope.loopScope loopId exitB condB [] :: f3.scopes }
  match Br f4 cur condB with
  | Except.error e => Except.error e
  | Except.ok f5 =>
    match expr_trans fuel tcx f5 condB cond with
    | Except.error e => Except.error e
    | Except.ok (f7, condOut, condVal) =>
      match CondBr f7 condOut condVal bodyB exitB with
      | Except.error e => Except.error e
      | Except.ok f8 =>
        match trans_block fuel tcx f8 bodyB body Dest.ignore with
        | Except.error e => Except.error e
        | Except.ok (f9, bodyOut) =>
          match Br f9 bodyOut condB with
          | Except.error e => Except.error e
          | Except.ok f10 =>
            match pop_loop_cleanup_scope f10 loopId with
            | Except.error e => Except.error e
            | Except.ok f11 => Except.ok (f11, exitB)

/-- C6: lowering a while-loop from a reachable block follows exactly the
specified pipeline (`whileLoweringSpec`), and on success it returns the exit
block — the first of the three newly created blocks — as the new current
block. -/
theorem C6_while (fuel : Nat) (tcx : Tcx) (fcx : FCx) (cur : Nat) (loopId : Nat)
    (cond : Expr) (body : Blk) (hre : (getBl fcx cur).unreachable = false) :
    trans_while (fuel+1) tcx fcx cur loopId cond body =
      whileLoweringSpec fuel tcx fcx cur loopId cond body ∧
    (∀ g r, trans_while (fuel+1) tcx fcx cur loopId cond body = Except.ok (g, r) →
      r = fcx.nextBlk) := by
  have hmain : trans_while (fuel+1) tcx fcx cur loopId cond body =
      whileLoweringSpec fuel tcx fcx cur loopId cond body := by
    simp only [trans_while, hre, Bool.false_eq_true, if_false, new_id_block,
      push_loop_cleanup_scope, whileLoweringSpec, List.append_assoc, List.cons_append,
      List.nil_append]
    exact normal_exit_seq
      { fcx with nextBlk := fcx.nextBlk + 3,
                 blocks := fcx.blocks ++
                   [(fcx.nextBlk, BB.mk "while_exit" false false []),
                    (fcx.nextBlk + 1, BB.mk "while_cond" false false []),
                    (fcx.nextBlk + 2, BB.mk "while_body" false false [])],
                 scopes := CleanupScope.loopScope loopId fcx.nextBlk (fcx.nextBlk + 1) [] ::
                   fcx.scopes }
      cur (fcx.nextBlk + 1) loopId fcx.nextBlk fcx.scopes
      (fun f6 cleanupB =>
        match expr_trans fuel tcx f6 (fcx.nextBlk + 1) cond with
        | Except.error e => Except.error e
        | Except.ok (f7, condOut, condVal) =>
          match CondBr f7 condOut condVal (fcx.nextBlk + 2) cleanupB with
          | Except.error e => Except.error e
          | Except.ok f8 =>
            match trans_block fuel tcx f8 (fcx.nextBlk + 2) body Dest.ignore with
            | Except.error e => Except.error e
            | Except.ok (f9, bodyOut) =>
              match Br f9 bodyOut (fcx.nextBlk + 1) with
              | Except.error e => Except.error e
              | Except.ok f10 =>
                match pop_loop_cleanup_scope f10 loopId with
                | Except.error e => Except.error e
                | Except.ok f11 => Except.ok (f11, fcx.nextBlk))
      rfl
  refine ⟨hmain, ?_⟩
  intro g r h
  rw [hmain] at h
  simp only [whileLoweringSpec] at h
  split at h
  · cases h
  · split at h
    · cases h
    · split at h
      · cases h
      · split at h
        · cases h
        · split at h
          · cases h
          · split at h
            · cases h
            · cases h
              rfl

/-- Witness for C6: a concrete while-loop lowered from block 0 of `openFcx`
follows the pipeline and returns exit block 1. -/
theorem C6_witness :
    trans_while 4 tcxC2 openFcx 0 5 (Expr.simple 6 (Val.reg 0) 1)
        (Blk.mk 10 Stmts.nil OptE.noneE) =
      whileLoweringSpec 3 tcxC2 openFcx 0 5 (Expr.simple 6 (Val.reg 0) 1)
        (Blk.mk 10 Stmts.nil OptE.noneE) ∧
    (∀ g r, trans_while 4 tcxC2 openFcx 0 5 (Expr.simple 6 (Val.reg 0) 1)
        (Blk.mk 10 Stmts.nil OptE.noneE) = Except.ok (g, r) → r = openFcx.nextBlk) :=
  C6_while 3 tcxC2 openFcx 0 5 (Expr.simple 6 (Val.reg 0) 1)
    (Blk.mk 10 Stmts.nil OptE.noneE) rfl

/- ----------------------------------------------------------------------
Claim C8: return lowering
---------------------------------------------------------------------- -/

/-- Modelled from the spec: the step-by-step description of Return lowering.
The return expression, if any, is evaluated into the function's return slot
(obtained from `get_ret_slot`) when the function has one, and with
destination ignored when it does not; when the calling convention needs
return allocas the slot is additionally stored into the return pointer; then
control branches to the function's single shared return-cleanup exit block
and the current block is marked unreachable. -/
def retLoweringSpec (fuel : Nat) (tcx : Tcx) (fcx : FCx) (cur _retId : Nat)
    (retvalExpr : OptE) : Except String (FCx × Nat) :=
  match retvalExpr with
  | OptE.noneE =>
    match Br fcx cur fcx.retExit with
    | Except.error e => Except.error e
    | Except.ok f4 => Except.ok (Unreachable f4 cur, cur)
  | OptE.someE x =>
    match fcx.llretslotptr with
    | none =>
      match expr_trans_into fuel tcx fcx cur x Dest.ignore with
      | Except.error e => Except.error e
      | Except.ok (f2, c2) =>
        match Br f2 c2 f2.retExit with
        | Except.error e => Except.error e
        | Except.ok f4 => Except.ok (Unreachable f4 c2, c2)
    | some _ =>
      let p := get_ret_slot fcx
      match expr_trans_into fuel tcx p.1 cur x (Dest.saveIn p.2) with
      | Except.error e => Except.error e
      | Except.ok (f2, c2) =>
        let f3 := if f2.needsRetAllocas then
            (Store f2 c2 (Val.slot p.2) (Val.slot (f2.llretslotptr.getD 0))).1
          else f2
        match Br f3 c2 f3.retExit with
        | Except.error e => Except.error e
        | Except.ok f4 => Except.ok (Unreachable f4 c2, c2)

/-- C8: lowering a return statement from a reachable block follows exactly
the specified pipeline (`retLoweringSpec`): the return expression, if any, is
evaluated into the function's return slot (or with destination ignored when
the function has no return slot), the slot is additionally stored into the
return pointer when the calling convention needs return allocas, control
branches to the function's single shared return-cleanup exit block, and the
current block is marked unreachable. -/
theorem C8_return (fuel : Nat) (tcx : Tcx) (fcx : FCx) (cur : Nat) (retId : Nat)
    (rv : OptE) (hre : (getBl fcx cur).unreachable = false) :
    trans_ret (fuel+1) tcx fcx cur retId rv =
      retLoweringSpec fuel tcx fcx cur retId rv := by
  cases hlr : fcx.llretslotptr with
  | none =>
    cases rv with
    | noneE =>
      simp only [trans_ret, retLoweringSpec, retDest, return_exit_block, hre,
        Bool.false_eq_true, if_false, hlr]
    | someE x =>
      simp only [trans_ret, retLoweringSpec, retDest, return_exit_block, hre,
        Bool.false_eq_true, if_false, hlr]
      cases hinto : expr_trans_into fuel tcx fcx cur x Dest.ignore with
      | error e => rfl
      | ok fc =>
        obtain ⟨f2, c2⟩ := fc
        rfl
  | some p =>
    cases rv with
    | noneE =>
      simp only [trans_ret, retLoweringSpec, retDest, return_exit_block, hre,
        Bool.false_eq_true, if_false, hlr]
    | someE x =>
      simp only [trans_ret, retLoweringSpec, retDest, return_exit_block, hre,
        Bool.false_eq_true, if_false, hlr]
      cases hinto : expr_trans_into fuel tcx (get_ret_slot fcx).1 cur x
          (Dest.saveIn (get_ret_slot fcx).2) with
      | error e => rfl
      | ok fc =>
        obtain ⟨f2, c2⟩ := fc
        by_cases hna : f2.needsRetAllocas
        · simp [hna]
        · simp [hna]

/-- A context with a return slot, for the C8 witness. -/
def fcxC8 : FCx :=
  { nextBlk := 1, blocks := [(0, BB.mk "" false false [])], scopes := [],
    llretslotptr := some 50, needsRetAllocas := true, retExit := 99,
    nextVal := 0, items := [] }

/-- Witness for C8: returning a simple expression from block 0 of `fcxC8`. -/
theorem C8_witness :
    trans_ret 4 tcxC2 fcxC8 0 30 (OptE.someE (Expr.simple 7 (Val.reg 3) 1)) =
      retLoweringSpec 3 tcxC2 fcxC8 0 30 (OptE.someE (Expr.simple 7 (Val.reg 3) 1)) :=
  C8_return 3 tcxC2 fcxC8 0 30 (OptE.someE (Expr.simple 7 (Val.reg 3) 1)) rfl

end Rustc
